import Mathlib

/-!
# embedded_printf

A shallow embedding of `src/embedded_printf.c` (version 1.00) and theorems about it.

Conventions of the embedding.

* Bytes (`uint8_t`) and words (`uint32_t`) are natural numbers; every place where the C code
  truncates is an explicit `% 256` or `% 4294967296`.
* A pointer into a zero-terminated byte sequence is the list of the bytes stored from the pointer
  on; `*(p++)` is `readByte p` / `advance p`.  Reading where the list has ended yields `0`.
* The file-scope and function-scope `static` variables are the fields of `Static`.
* `embedded_putChar` is an application-supplied sink; the embedding records the bytes passed to
  it, in order.
* The variadic argument list is a list of `Arg`; `va_arg` takes its head.
-/

namespace EmbeddedPrintf

/-! ## Definitions (lines 66-68) -/

def FLAG_HEX_USE_CAPITALS : Nat := 0x1
def FLAG_USE_ZERO_PADDING : Nat := 0x2
def FLAG_IS_NOT_FIRST_DIGIT : Nat := 0x4

/-- Ways in which a call does not run to completion: an `ASSERT` that fails, a loop of the
embedding that runs out of fuel (the C loop does not end), a `va_arg` that finds no argument of
the type it asks for.  The bytes emitted before the fault are not recorded. -/
inductive Fault where
  | assertFailed
  | outOfFuel
  | badArgument
deriving DecidableEq, Repr

/-- The C operator `a && b` on integer operands: true iff both are non-zero. -/
def logicalAnd (a b : Nat) : Bool := a != 0 && b != 0

/-- The `static` variables: `outputBuffer[12]`, `outputBufferPtr` (as an index into
`outputBuffer`), `embpf_InternalFlags` and the function-static `u32integerNumber`. -/
structure Static where
  outputBuffer : List Nat
  outputBufferPtr : Nat
  embpf_InternalFlags : Nat
  u32integerNumber : Nat
deriving DecidableEq, Repr

/-- One variadic argument: a 32-bit value, or a pointer to bytes owned by the caller. -/
inductive Arg where
  | word (v : Nat)
  | str (bytes : List Nat)
deriving DecidableEq, Repr

/-- The byte `*p`. -/
def readByte (p : List Nat) : Nat := p.headD 0

/-- The pointer `p + 1`. -/
def advance (p : List Nat) : List Nat := p.tail

/-- Modelled from the spec: the `ASSERT` macro, which the application must supply (header, step 2).
A violated assertion is a fatal programming error: the call stops. -/
def ASSERT (condition : Bool) : Except Fault Unit :=
  if condition then .ok () else .error Fault.assertFailed

/-- The call `va_arg(arguments, uint32_t)`. -/
def vaArgWord : List Arg → Except Fault (Nat × List Arg)
  | Arg.word v :: rest => .ok (v % 4294967296, rest)
  | _ => .error Fault.badArgument

/-- The call `va_arg(arguments, uint8_t *)`. -/
def vaArgStr : List Arg → Except Fault (List Nat × List Arg)
  | Arg.str p :: rest => .ok (p, rest)
  | _ => .error Fault.badArgument

/-! ## Private functions (lines 446-519) -/

/-- Lines 446-450: `*(outputBufferPtr++) = character`. -/
def putInOutputBuffer (s : Static) (character : Nat) : Static :=
  { s with
    outputBuffer := s.outputBuffer.set s.outputBufferPtr character
    outputBufferPtr := s.outputBufferPtr + 1 }

/-- Lines 464-489.  The parameter is a `uint8_t`. -/
def putDigitInOutputBuffer (s : Static) (outputDigit : Nat) : Except Fault Static := do
  ASSERT (decide (15 ≥ outputDigit))
  let s1 :=
    if 10 > outputDigit then
      putInOutputBuffer s ((outputDigit + 48) % 256)
    else if logicalAnd s.embpf_InternalFlags FLAG_HEX_USE_CAPITALS then
      putInOutputBuffer s (((outputDigit - 10) + 65) % 256)
    else
      putInOutputBuffer s (((outputDigit - 10) + 97) % 256)
  pure { s1 with embpf_InternalFlags := s1.embpf_InternalFlags ||| FLAG_IS_NOT_FIRST_DIGIT }

/-- Lines 506-510: the subtraction loop, returning the number left and the count (a `uint8_t`). -/
def divideLoop (dividend : Nat) : Nat → Nat → Nat → Except Fault (Nat × Nat)
  | 0, _, _ => .error Fault.outOfFuel
  | fuel + 1, number, outputDigit =>
    if number > dividend then
      divideLoop dividend fuel (number - dividend) ((outputDigit + 1) % 256)
    else
      .ok (number, outputDigit)

/-- Lines 501-519, with `number` pointing at `u32integerNumber` as in every call.  The loop
subtracts at most `number / dividend` times, which bounds the fuel. -/
def divideAndPutInOutputBuffer (s : Static) (dividend : Nat) : Except Fault Static := do
  let (number, outputDigit) ←
    divideLoop dividend (s.u32integerNumber / dividend + 1) s.u32integerNumber 0
  let s1 := { s with u32integerNumber := number }
  if outputDigit > 0 || logicalAnd s1.embpf_InternalFlags FLAG_IS_NOT_FIRST_DIGIT then
    putDigitInOutputBuffer s1 outputDigit
  else
    pure s1

/-! ## `embedded_printf` (lines 172-429) -/

/-- The test `('0' <= c) && ('9' >= c)`. -/
def isWidthDigit (c : Nat) : Bool := decide (48 ≤ c) && decide (57 ≥ c)

/-- Lines 243-259: the width loop.  Returns `format`, `currentCharacter`, `formatWidth`. -/
def widthLoop : List Nat → Nat → Nat → List Nat × Nat × Nat
  | format, currentCharacter, formatWidth =>
    if isWidthDigit currentCharacter then
      let w1 := (((formatWidth <<< 2) + formatWidth) <<< 1) % 256
      let w2 := (w1 + (currentCharacter - 48)) % 256
      match format with
      | [] => ([], 0, w2)
      | c :: rest => widthLoop rest c w2
    else
      (format, currentCharacter, formatWidth)

/-- Lines 216-260: read the optional `0` flag and the width.  Returns the static state,
`format`, `currentCharacter` (the specifier) and `formatWidth`. -/
def parseFlagsWidth (s : Static) (format : List Nat) : Static × List Nat × Nat × Nat :=
  let c1 := readByte format
  let f1 := advance format
  if 48 = c1 then
    let s1 := { s with embpf_InternalFlags := s.embpf_InternalFlags ||| FLAG_USE_ZERO_PADDING }
    let r := widthLoop (advance f1) (readByte f1) 0
    (s1, r.1, r.2.1, r.2.2)
  else
    let r := widthLoop f1 c1 0
    (s, r.1, r.2.1, r.2.2)

/-- Where `outputStringPtr` points: at `outputBuffer`, or at the caller's string. -/
inductive Source where
  | buffer
  | caller (p : List Nat)
deriving DecidableEq, Repr

/-- Lines 314-323: the nine decimal places and the last digit. -/
def stageDecimal (s : Static) : Except Fault Static := do
  let s ← divideAndPutInOutputBuffer s 1000000000
  let s ← divideAndPutInOutputBuffer s 100000000
  let s ← divideAndPutInOutputBuffer s 10000000
  let s ← divideAndPutInOutputBuffer s 1000000
  let s ← divideAndPutInOutputBuffer s 100000
  let s ← divideAndPutInOutputBuffer s 10000
  let s ← divideAndPutInOutputBuffer s 1000
  let s ← divideAndPutInOutputBuffer s 100
  let s ← divideAndPutInOutputBuffer s 10
  putDigitInOutputBuffer s (s.u32integerNumber % 256)

/-- Lines 347-354: the seven hexadecimal places and the last digit. -/
def stageHex (s : Static) : Except Fault Static := do
  let s ← divideAndPutInOutputBuffer s 0x10000000
  let s ← divideAndPutInOutputBuffer s 0x1000000
  let s ← divideAndPutInOutputBuffer s 0x100000
  let s ← divideAndPutInOutputBuffer s 0x10000
  let s ← divideAndPutInOutputBuffer s 0x1000
  let s ← divideAndPutInOutputBuffer s 0x100
  let s ← divideAndPutInOutputBuffer s 0x10
  putDigitInOutputBuffer s (s.u32integerNumber % 256)

/-- The expression `(~v) + 1u` on a `uint32_t`. -/
def twosComplement (v : Nat) : Nat := ((v ^^^ 0xFFFFFFFF) + 1) % 4294967296

/-- Lines 262-379: reset the buffer pointer and dispatch on the specifier.  Returns the static
state, `outputStringPtr` and the argument cursor. -/
def stageSpecifier (s : Static) (currentCharacter : Nat) (arguments : List Arg) :
    Except Fault (Static × Source × List Arg) := do
  let s := { s with outputBufferPtr := 0 }
  if currentCharacter = 117 ∨ currentCharacter = 105 ∨ currentCharacter = 100 then
    let (v, arguments) ← vaArgWord arguments
    let s := { s with u32integerNumber := v }
    let s :=
      if (currentCharacter = 100 ∨ currentCharacter = 105) ∧ s.u32integerNumber ≥ 2147483648 then
        putInOutputBuffer { s with u32integerNumber := twosComplement s.u32integerNumber } 45
      else s
    let s ← stageDecimal s
    let s := { s with embpf_InternalFlags := s.embpf_InternalFlags &&& 251 }
    pure (s, Source.buffer, arguments)
  else if currentCharacter = 120 ∨ currentCharacter = 88 then
    let s :=
      if currentCharacter = 88 then
        { s with embpf_InternalFlags := s.embpf_InternalFlags ||| FLAG_HEX_USE_CAPITALS }
      else s
    let (v, arguments) ← vaArgWord arguments
    let s ← stageHex { s with u32integerNumber := v }
    pure (s, Source.buffer, arguments)
  else if currentCharacter = 99 then
    let (v, arguments) ← vaArgWord arguments
    pure (putInOutputBuffer s (v % 256), Source.buffer, arguments)
  else if currentCharacter = 115 then
    let (p, arguments) ← vaArgStr arguments
    pure (s, Source.caller p, arguments)
  else if currentCharacter = 37 then
    pure (putInOutputBuffer s 37, Source.buffer, arguments)
  else
    pure (s, Source.buffer, arguments)

/-- Lines 386-389: `while((*(outputBufferPtr++)) && (formatWidth > 0u)) formatWidth--;`.
Returns `formatWidth`. -/
def subtractLength : List Nat → Nat → Nat
  | [], formatWidth => formatWidth
  | c :: rest, formatWidth =>
    if c != 0 && decide (formatWidth > 0) then subtractLength rest (formatWidth - 1)
    else formatWidth

/-- Lines 395-405: `while(formatWidth-- > 0u)`, one padding byte per round. -/
def padLoop (flags : Nat) : Nat → List Nat
  | 0 => []
  | formatWidth + 1 =>
    (if logicalAnd flags FLAG_USE_ZERO_PADDING then 48 else 32) :: padLoop flags formatWidth

/-- Lines 411-416: pass the string to the output, up to its terminator. -/
def copyLoop : List Nat → List Nat
  | [] => []
  | c :: rest => if c != 0 then c :: copyLoop rest else []

/-- Lines 383-416: the bytes passed to `embedded_putChar` for one directive, given the flags,
the parsed width and the bytes at `outputStringPtr`. -/
def emitDirective (flags formatWidth : Nat) (outputString : List Nat) : List Nat :=
  padLoop flags (subtractLength outputString formatWidth) ++ copyLoop outputString

/-- The bytes `outputStringPtr` points at. -/
def Source.bytes (s : Static) : Source → List Nat
  | Source.buffer => s.outputBuffer
  | Source.caller p => p

/-- What one directive leaves behind. -/
structure Directive where
  static : Static
  format : List Nat
  arguments : List Arg
  emitted : List Nat
deriving DecidableEq, Repr

/-- Lines 216-416: one directive, `format` pointing just after its `%`.  From line 383 on
`outputBufferPtr` is only the cursor of the length loop, and line 262 resets it before it is used
again: the field keeps the write position. -/
def directive (s : Static) (format : List Nat) (arguments : List Arg) :
    Except Fault Directive := do
  let (s1, format1, currentCharacter, formatWidth) := parseFlagsWidth s format
  let (s2, outputStringPtr, arguments1) ← stageSpecifier s1 currentCharacter arguments
  let s3 := { s2 with outputBuffer := s2.outputBuffer.set s2.outputBufferPtr 0 }
  pure { static := s3, format := format1, arguments := arguments1,
         emitted := emitDirective s3.embpf_InternalFlags formatWidth (outputStringPtr.bytes s3) }

/-- What a call leaves behind: the bytes passed to `embedded_putChar`, the argument cursor, the
static state and the format pointer. -/
structure Result where
  out : List Nat
  arguments : List Arg
  static : Static
  format : List Nat
deriving DecidableEq, Repr

/-- Lines 202-423: the scanning loop. -/
def mainLoop : Nat → Static → List Nat → Nat → List Arg → List Nat → Except Fault Result
  | 0, _, _, _, _, _ => .error Fault.outOfFuel
  | fuel + 1, s, format, currentCharacter, arguments, out =>
    if currentCharacter = 0 then
      .ok { out := out, arguments := arguments, static := s, format := format }
    else if 37 ≠ currentCharacter then
      mainLoop fuel s (advance format) (readByte format) arguments (out ++ [currentCharacter])
    else
      match directive s format arguments with
      | .error e => .error e
      | .ok d =>
        mainLoop fuel d.static (advance d.format) (readByte d.format) d.arguments
          (out ++ d.emitted)

/-- Lines 172-429.  Every round of the scanning loop reads at least one byte of the format, so
`format.length + 1` rounds are enough. -/
def embedded_printf (s : Static) (format : List Nat) (arguments : List Arg) :
    Except Fault Result :=
  mainLoop (format.length + 1) { s with embpf_InternalFlags := 0 } (advance format)
    (readByte format) arguments []

/-- The static storage before the first call: zero-initialised. -/
def Static.initial : Static :=
  { outputBuffer := List.replicate 12 0, outputBufferPtr := 0, embpf_InternalFlags := 0,
    u32integerNumber := 0 }

/-- The bytes of a string literal, followed by the terminator. -/
def cstring (text : String) : List Nat := text.toList.map Char.toNat ++ [0]

/-- The bytes a call passes to `embedded_putChar`. -/
def emitted (s : Static) (format : List Nat) (arguments : List Arg) : Except Fault (List Nat) :=
  (embedded_printf s format arguments).map Result.out

/-- The decimal representation of `n`, as bytes, most significant digit first. -/
def decimalDigits (n : Nat) : List Nat := (Nat.toDigits 10 n).map Char.toNat

/-- The hexadecimal representation of `n` with lowercase letters, as bytes. -/
def hexDigitsLower (n : Nat) : List Nat := (Nat.toDigits 16 n).map Char.toNat

/-- The hexadecimal representation of `n` with capital letters, as bytes. -/
def hexDigitsUpper (n : Nat) : List Nat :=
  (Nat.toDigits 16 n).map fun c => if 97 ≤ c.toNat then c.toNat - 32 else c.toNat

/-- The bytes of a string literal, without a terminator. -/
def text (t : String) : List Nat := t.toList.map Char.toNat

deriving instance DecidableEq for Except

/-! ## Relations between two runs -/

/-- Two static states agree on the flags, the write position, the size of the buffer and the
bytes written so far. -/
def Static.Similar (s t : Static) : Prop :=
  s.outputBufferPtr = t.outputBufferPtr ∧
  s.embpf_InternalFlags = t.embpf_InternalFlags ∧
  s.outputBuffer.length = t.outputBuffer.length ∧
  s.outputBuffer.take s.outputBufferPtr = t.outputBuffer.take s.outputBufferPtr

/-- Two outcomes are the same fault, or results related by `R`. -/
def ExceptRel {α : Type} (R : α → α → Prop) : Except Fault α → Except Fault α → Prop
  | .ok a, .ok b => R a b
  | .error e, .error f => e = f
  | _, _ => False

/-- Similar static states that also hold the same number. -/
def Static.Alike (s t : Static) : Prop :=
  s.Similar t ∧ s.u32integerNumber = t.u32integerNumber

/-- Two static states hold the same flags in buffers of the same size. -/
def Static.Compatible (s t : Static) : Prop :=
  s.embpf_InternalFlags = t.embpf_InternalFlags ∧ s.outputBuffer.length = t.outputBuffer.length

/-- Two directives left the same observable results and compatible static states. -/
def Directive.Same (d e : Directive) : Prop :=
  d.static.Compatible e.static ∧ d.format = e.format ∧ d.arguments = e.arguments ∧
    d.emitted = e.emitted

/-- Two calls left the same observable results and compatible static states. -/
def Result.Same (r q : Result) : Prop :=
  r.out = q.out ∧ r.arguments = q.arguments ∧ r.format = q.format ∧ r.static.Compatible q.static

/-! ## Formats and specifiers -/

/-- Modelled on the directive grammar `%[0][width]specifier`: the second format is the first
with the specifier `i` of some of its directives replaced by `d`, or `d` by `i`.  A format is
literal bytes and directives; a directive is `%`, a run of ASCII digits (the optional `0` flag
and the width) and one byte that is not a digit, its specifier. -/
inductive SwapDI : List Nat → List Nat → Prop where
  | done : SwapDI [] []
  | literal (c : Nat) {f g : List Nat} : c ≠ 37 → SwapDI f g → SwapDI (c :: f) (c :: g)
  | directive (digs : List Nat) (c c' : Nat) {f g : List Nat} :
      (∀ b ∈ digs, isWidthDigit b = true) → isWidthDigit c = false →
      (c' = c ∨ (c = 105 ∧ c' = 100) ∨ (c = 100 ∧ c' = 105)) →
      SwapDI f g → SwapDI (37 :: (digs ++ c :: f)) (37 :: (digs ++ c' :: g))

/-- The specifiers that take an argument: `c d i s u x X`. -/
def consumesArgument (c : Nat) : Prop :=
  c = 99 ∨ c = 100 ∨ c = 105 ∨ c = 115 ∨ c = 117 ∨ c = 120 ∨ c = 88

instance (c : Nat) : Decidable (consumesArgument c) := by
  unfold consumesArgument
  infer_instance

/-- The decimal value of a run of ASCII digits. -/
def decimalValue (run : List Nat) : Nat := run.foldl (fun v b => 10 * v + (b - 48)) 0

/-- The digits of a directive that are its width: all of them, but for the `0` flag. -/
def widthRun (digs : List Nat) : List Nat :=
  match digs with
  | 48 :: run => run
  | _ => digs

/-! ## Staged bytes -/

/-- The bytes staged since the buffer pointer was reset. -/
def Static.staged (s : Static) : List Nat := s.outputBuffer.take s.outputBufferPtr

/-- The staged bytes are the decimal representation of `m`, or nothing yet when `m = 0`, and
the digit-emitted flag is set exactly when something was staged (no other flag is). -/
def Static.StagedDecimal (s : Static) (m : Nat) : Prop :=
  s.staged = (if m = 0 then [] else decimalDigits m) ∧
    s.embpf_InternalFlags = (if m = 0 then 0 else 4)

/-! ## The pieces of a format -/

/-- Modelled on the directive grammar `%[0][width]specifier`: one piece of a format string, a
literal byte or a directive, given by its run of ASCII digits (the optional `0` flag and the
width) and its specifier. -/
inductive Item where
  | literal (c : Nat)
  | directive (digs : List Nat) (specifier : Nat)
deriving DecidableEq, Repr

/-- A literal byte is neither the terminator nor `%`; the digits of a directive are ASCII digits
and its specifier is not one. -/
def Item.WellFormed : Item → Prop
  | Item.literal c => c ≠ 0 ∧ c ≠ 37
  | Item.directive digs specifier =>
    (∀ b ∈ digs, isWidthDigit b = true) ∧ isWidthDigit specifier = false

/-- The bytes of one piece of a format string. -/
def Item.render : Item → List Nat
  | Item.literal c => [c]
  | Item.directive digs specifier => 37 :: (digs ++ [specifier])

/-- The bytes of a format string made of the given pieces, without its terminator. -/
def renderItems : List Item → List Nat
  | [] => []
  | item :: items => item.render ++ renderItems items

/-- The number of directives with one of the specifiers `c d i s u x X`. -/
def consumers : List Item → Nat
  | [] => 0
  | Item.literal _ :: items => consumers items
  | Item.directive _ specifier :: items =>
    (if consumesArgument specifier then 1 else 0) + consumers items

/-- Modelled on the claim that arguments are consumed in order: the pieces of a format, run
from left to right, where `k` directives with one of the specifiers `c d i s u x X` came
before.  Such a directive is run on the argument of index `k` alone, and the next one on the
argument of index `k + 1`; any other directive is run on no argument at all, and a literal byte
is emitted.  Returns the static state and the bytes emitted. -/
def specRunInOrder : Static → List Item → List Arg → Nat → Except Fault (Static × List Nat)
  | s, [], _, _ => .ok (s, [])
  | s, Item.literal c :: items, arguments, k =>
    (specRunInOrder s items arguments k).map fun r => (r.1, c :: r.2)
  | s, Item.directive digs specifier :: items, arguments, k =>
    if consumesArgument specifier then
      match arguments[k]? with
      | none => .error Fault.badArgument
      | some a =>
        match directive s (digs ++ [specifier]) [a] with
        | .error e => .error e
        | .ok d =>
          (specRunInOrder d.static items arguments (k + 1)).map fun r => (r.1, d.emitted ++ r.2)
    else
      match directive s (digs ++ [specifier]) [] with
      | .error e => .error e
      | .ok d =>
        (specRunInOrder d.static items arguments k).map fun r => (r.1, d.emitted ++ r.2)

instance (i : Item) : Decidable i.WellFormed := by
  cases i <;> unfold Item.WellFormed <;> infer_instance

/-! ## The emitter -/

theorem copyLoop_eq_takeWhile (p : List Nat) : copyLoop p = p.takeWhile (· != 0) := by
  induction p with
  | nil => rfl
  | cons c rest ih =>
    by_cases h : c = 0
    · simp [copyLoop, List.takeWhile, h]
    · have hb : (c != 0) = true := bne_iff_ne.mpr h
      simp [copyLoop, List.takeWhile_cons, hb, ih]

theorem subtractLength_eq (p : List Nat) (w : Nat) :
    subtractLength p w = w - (p.takeWhile (· != 0)).length := by
  induction p generalizing w with
  | nil => simp [subtractLength]
  | cons c rest ih =>
    by_cases h : c = 0
    · simp [subtractLength, List.takeWhile, h]
    · cases w with
      | zero => simp [subtractLength, List.takeWhile, h]
      | succ w =>
        have hb : (c != 0) = true := bne_iff_ne.mpr h
        simp [subtractLength, List.takeWhile_cons, hb, ih]

theorem padLoop_eq_replicate (flags n : Nat) :
    padLoop flags n =
      List.replicate n (if logicalAnd flags FLAG_USE_ZERO_PADDING then 48 else 32) := by
  induction n with
  | zero => rfl
  | succ n ih => simp [padLoop, ih, List.replicate_succ]

theorem emitDirective_eq (flags w : Nat) (p : List Nat) :
    emitDirective flags w p =
      List.replicate (w - (p.takeWhile (· != 0)).length)
        (if logicalAnd flags FLAG_USE_ZERO_PADDING then 48 else 32) ++ p.takeWhile (· != 0) := by
  simp [emitDirective, copyLoop_eq_takeWhile, subtractLength_eq, padLoop_eq_replicate]

theorem takeWhile_terminated (str junk : List Nat) (h : ∀ b ∈ str, b ≠ 0) :
    (str ++ 0 :: junk).takeWhile (· != 0) = str := by
  induction str with
  | nil => simp [List.takeWhile]
  | cons c rest ih =>
    have hc : c ≠ 0 := h c (List.mem_cons_self _ _)
    have hr : ∀ b ∈ rest, b ≠ 0 := fun b hb => h b (List.mem_cons_of_mem _ hb)
    have hb : (c != 0) = true := bne_iff_ne.mpr hc
    simp [List.takeWhile_cons, hb, ih hr]

theorem widthLoop_lt (format : List Nat) (c w : Nat) (hw : w < 256) :
    (widthLoop format c w).2.2 < 256 := by
  induction format generalizing c w with
  | nil =>
    unfold widthLoop
    split
    · exact Nat.mod_lt _ (by decide)
    · exact hw
  | cons a rest ih =>
    unfold widthLoop
    split
    · exact ih _ _ (Nat.mod_lt _ (by decide))
    · exact hw

theorem parseFlagsWidth_lt (s : Static) (format : List Nat) :
    (parseFlagsWidth s format).2.2.2 < 256 := by
  by_cases h : 48 = readByte format
  · simp only [parseFlagsWidth, h, if_true]
    exact widthLoop_lt _ _ _ (by decide)
  · simp only [parseFlagsWidth, h, if_false]
    exact widthLoop_lt _ _ _ (by decide)

theorem vaArgStr_ok {arguments rest : List Arg} {p : List Nat}
    (h : vaArgStr arguments = .ok (p, rest)) : arguments = Arg.str p :: rest := by
  unfold vaArgStr at h
  split at h
  · cases h; rfl
  · cases h

theorem stageSpecifier_source {s s2 : Static} {c : Nat} {arguments rest : List Arg} {src : Source}
    (h : stageSpecifier s c arguments = .ok (s2, src, rest)) :
    (c = 115 ∧ ∃ p, src = Source.caller p ∧ arguments = Arg.str p :: rest) ∨
      (c ≠ 115 ∧ src = Source.buffer) := by
  unfold stageSpecifier at h
  simp only [bind, Except.bind, pure, Except.pure] at h
  repeat' split at h
  all_goals first
    | (cases h; done)
    | (cases h; right; refine ⟨?_, rfl⟩; omega)
    | (rename_i hc _ v hv
       cases h
       exact Or.inl ⟨hc, v.1, rfl, vaArgStr_ok hv⟩)

/-- C5: the bytes emitted for a directive are `W - L` padding bytes, each `'0'` or `' '`,
followed by the whole zero-terminated content, where `W < 256` is the parsed width and `L` the
length of the content: the content of the caller's string for `s`, of the staging buffer
otherwise.  The total is `max W L` bytes, and `"%1d"` with `5` emits `"5"`. -/
theorem directive_pads_before_content (s : Static) (format : List Nat) (arguments : List Arg)
    (d : Directive) (h : directive s format arguments = .ok d) :
    (∃ source pad : _,
      (((parseFlagsWidth s format).2.2.1 = 115 ∧ ∃ rest, arguments = Arg.str source :: rest) ∨
        ((parseFlagsWidth s format).2.2.1 ≠ 115 ∧ source = d.static.outputBuffer)) ∧
      (pad = 48 ∨ pad = 32) ∧
      (parseFlagsWidth s format).2.2.2 < 256 ∧
      d.emitted =
        List.replicate ((parseFlagsWidth s format).2.2.2 - (source.takeWhile (· != 0)).length) pad
          ++ source.takeWhile (· != 0) ∧
      d.emitted.length =
        max (parseFlagsWidth s format).2.2.2 (source.takeWhile (· != 0)).length) ∧
    emitted Static.initial (cstring "%1d") [Arg.word 5] = .ok (text "5") := by
  refine ⟨?_, by decide⟩
  unfold directive at h
  simp only [bind, Except.bind, pure, Except.pure] at h
  split at h
  · cases h
  · rename_i r hr
    obtain ⟨s2, src, rest⟩ := r
    cases h
    refine ⟨src.bytes { s2 with outputBuffer := s2.outputBuffer.set s2.outputBufferPtr 0 },
      if logicalAnd s2.embpf_InternalFlags FLAG_USE_ZERO_PADDING then 48 else 32, ?_, ?_,
      parseFlagsWidth_lt s format, ?_, ?_⟩
    · rcases stageSpecifier_source hr with ⟨hc, p, hp, ha⟩ | ⟨hc, hp⟩
      · left
        subst hp
        exact ⟨hc, rest, ha⟩
      · right
        subst hp
        exact ⟨hc, rfl⟩
    · split
      · exact Or.inl rfl
      · exact Or.inr rfl
    · exact emitDirective_eq _ _ _
    · rw [emitDirective_eq]
      simp only [List.length_append, List.length_replicate]
      exact Nat.sub_add_eq_max _ _

theorem directive_pads_before_content_witness :
    directive Static.initial (advance (cstring "%4d")) [Arg.word 5] =
        .ok { static := { Static.initial with
                outputBuffer := 53 :: List.replicate 11 0, outputBufferPtr := 1,
                u32integerNumber := 5 },
              format := [0], arguments := [], emitted := text "   5" } ∧
      ((∃ source pad : _,
        (((parseFlagsWidth Static.initial (advance (cstring "%4d"))).2.2.1 = 115 ∧
            ∃ rest, [Arg.word 5] = Arg.str source :: rest) ∨
          ((parseFlagsWidth Static.initial (advance (cstring "%4d"))).2.2.1 ≠ 115 ∧
            source = 53 :: List.replicate 11 0)) ∧
        (pad = 48 ∨ pad = 32) ∧
        (parseFlagsWidth Static.initial (advance (cstring "%4d"))).2.2.2 < 256 ∧
        text "   5" =
          List.replicate ((parseFlagsWidth Static.initial (advance (cstring "%4d"))).2.2.2 -
            (source.takeWhile (· != 0)).length) pad ++ source.takeWhile (· != 0) ∧
        (text "   5").length =
          max (parseFlagsWidth Static.initial (advance (cstring "%4d"))).2.2.2
            (source.takeWhile (· != 0)).length) ∧
      emitted Static.initial (cstring "%1d") [Arg.word 5] = .ok (text "5")) :=
  ⟨by decide,
    directive_pads_before_content Static.initial (advance (cstring "%4d")) [Arg.word 5]
      { static := { Static.initial with
          outputBuffer := 53 :: List.replicate 11 0, outputBufferPtr := 1, u32integerNumber := 5 },
        format := [0], arguments := [], emitted := text "   5" } (by decide)⟩

/-! ## Numbers -/

/-- C1: `"%u"` with `10` emits `"a"`, not the decimal representation `"10"`; with `20` it emits
`"1A"` and with `4000000000` it emits `"399999999A"`. -/
theorem unsigned_ten_emits_letter :
    emitted Static.initial (cstring "%u") [Arg.word 10] = .ok (text "a") ∧
      decimalDigits 10 = text "10" ∧
      emitted Static.initial (cstring "%u") [Arg.word 20] = .ok (text "1A") ∧
      emitted Static.initial (cstring "%u") [Arg.word 4000000000] = .ok (text "399999999A") := by
  decide!

/-- C2: `"%d"` with `10` emits `"a"` and with `-10` emits `"-a"`: the sign is right, the bytes
after it are not the decimal representation of the magnitude. -/
theorem signed_ten_emits_letter :
    emitted Static.initial (cstring "%d") [Arg.word 10] = .ok (text "a") ∧
      emitted Static.initial (cstring "%d") [Arg.word (4294967296 - 10)] = .ok (text "-a") ∧
      twosComplement (4294967296 - 10) = 10 ∧
      decimalDigits 10 = text "10" := by
  decide!

/-- C3: `"%X"` with `255` emits `"000000FF"`, with leading zeros; `"%x"` with `26` emits `"1A"`,
with a capital letter; `"%x"` with `16` fails the assertion of `putDigitInOutputBuffer`. -/
theorem hex_leading_zeros_and_capitals :
    emitted Static.initial (cstring "%X") [Arg.word 255] = .ok (text "000000FF") ∧
      hexDigitsUpper 255 = text "FF" ∧
      emitted Static.initial (cstring "%x") [Arg.word 26] = .ok (text "1A") ∧
      hexDigitsLower 26 = text "1a" ∧
      emitted Static.initial (cstring "%x") [Arg.word 16] = .error Fault.assertFailed ∧
      hexDigitsLower 16 = text "10" := by
  decide!

/-- C6: `"%4x"` with `5`, a directive without the `0` flag, is padded with `'0'`: it emits
`"0005"`.  So is a `"%3c"` that follows a directive with the `0` flag: `"%0c%3c"` with `'A'` and
`'B'` emits `"A00B"`.  `"%4d"` with `5` alone emits `"   5"`. -/
theorem padding_zero_without_flag :
    emitted Static.initial (cstring "%4x") [Arg.word 5] = .ok (text "0005") ∧
      emitted Static.initial (cstring "%0c%3c") [Arg.word 65, Arg.word 66]
        = .ok (text "A00B") ∧
      emitted Static.initial (cstring "%4d") [Arg.word 5] = .ok (text "   5") := by
  decide!

/-- C7: `"%04d"` with `5` emits the ten bytes `"0000000005"`. -/
theorem zero_flag_emits_ten_digits :
    emitted Static.initial (cstring "%04d") [Arg.word 5] = .ok (text "0000000005") := by
  decide!

/-! ## Independence of the static state left by earlier calls -/

theorem take_succ_set (l : List Nat) (p c : Nat) :
    (l.set p c).take (p + 1) = l.take p ++ (if p < l.length then [c] else []) := by
  induction l generalizing p with
  | nil => simp
  | cons a l ih =>
    cases p with
    | zero => simp
    | succ p => simp [ih]

theorem putInOutputBuffer_similar {s t : Static} (h : s.Similar t) (c : Nat) :
    (putInOutputBuffer s c).Similar (putInOutputBuffer t c) := by
  obtain ⟨hp, hf, hl, ht⟩ := h
  refine ⟨by simp [putInOutputBuffer, hp], hf, by simp [putInOutputBuffer, hl], ?_⟩
  simp only [putInOutputBuffer, take_succ_set, ← hp, ht, hl]

theorem terminated_similar {s t : Static} (h : s.Similar t) :
    (s.outputBuffer.set s.outputBufferPtr 0).takeWhile (· != 0) =
      (t.outputBuffer.set t.outputBufferPtr 0).takeWhile (· != 0) := by
  obtain ⟨hp, hf, hl, ht⟩ := h
  rw [← hp]
  by_cases hlt : s.outputBufferPtr < s.outputBuffer.length
  · have e1 : ∀ l : List Nat, ∀ p, p < l.length →
        (l.set p 0).takeWhile (· != 0) = (l.take p).takeWhile (· != 0) := by
      intro l p hpl
      rw [List.set_eq_take_append_cons_drop, if_pos hpl, List.takeWhile_append]
      split
      · rename_i hfull
        simp only [List.takeWhile_cons, bne_self_eq_false, List.append_nil]
        simpa using ((List.takeWhile_prefix _).eq_of_length hfull).symm
      · rfl
    rw [e1 _ _ hlt, e1 _ _ (hl ▸ hlt), ht]
  · have e2 : ∀ l : List Nat, ∀ p, ¬ p < l.length → l.set p 0 = l.take p := by
      intro l p hpl
      rw [List.set_eq_of_length_le (by omega), List.take_of_length_le (by omega)]
    rw [e2 _ _ hlt, e2 _ _ (hl ▸ hlt), ht]

theorem ExceptRel.bind {α β : Type} {R : α → α → Prop} {Q : β → β → Prop}
    {x y : Except Fault α} {f g : α → Except Fault β} (h : ExceptRel R x y)
    (hfg : ∀ a b, R a b → ExceptRel Q (f a) (g b)) : ExceptRel Q (x >>= f) (y >>= g) := by
  cases x <;> cases y <;> simp only [ExceptRel] at h
  · subst h
    simp [ExceptRel, Bind.bind, Except.bind]
  · exact hfg _ _ h

theorem putDigitInOutputBuffer_alike {s t : Static} (h : s.Alike t) (d : Nat) :
    ExceptRel Static.Alike (putDigitInOutputBuffer s d) (putDigitInOutputBuffer t d) := by
  obtain ⟨hs, hn⟩ := h
  have hf := hs.2.1
  unfold putDigitInOutputBuffer ASSERT
  by_cases hd : 15 ≥ d
  · simp only [hd, decide_True, if_true, bind, Except.bind, pure, Except.pure, ExceptRel, hf]
    have key : ∀ c, Static.Alike
        { putInOutputBuffer s c with
          embpf_InternalFlags := (putInOutputBuffer s c).embpf_InternalFlags |||
            FLAG_IS_NOT_FIRST_DIGIT }
        { putInOutputBuffer t c with
          embpf_InternalFlags := (putInOutputBuffer t c).embpf_InternalFlags |||
            FLAG_IS_NOT_FIRST_DIGIT } := by
      intro c
      obtain ⟨hp, hf', hl, ht⟩ := putInOutputBuffer_similar hs c
      exact ⟨⟨hp, by simp only [hf'], hl, ht⟩, hn⟩
    split
    · exact key _
    · split
      · exact key _
      · exact key _
  · simp [hd, bind, Except.bind, ExceptRel]

theorem divideAndPutInOutputBuffer_alike {s t : Static} (h : s.Alike t) (dividend : Nat) :
    ExceptRel Static.Alike (divideAndPutInOutputBuffer s dividend)
      (divideAndPutInOutputBuffer t dividend) := by
  obtain ⟨sb, sp, sf, sn⟩ := s
  obtain ⟨tb, tp, tf, tn⟩ := t
  obtain ⟨⟨hp, hf, hl, ht⟩, hn⟩ := h
  simp only at hp hf hn
  subst hp hf hn
  unfold divideAndPutInOutputBuffer
  cases hloop : divideLoop dividend (sn / dividend + 1) sn 0 with
  | error e => simp [bind, Except.bind, ExceptRel]
  | ok r =>
    obtain ⟨number, outputDigit⟩ := r
    have hs1 : Static.Alike ⟨sb, sp, sf, number⟩ ⟨tb, sp, sf, number⟩ := ⟨⟨rfl, rfl, hl, ht⟩, rfl⟩
    simp only [bind, Except.bind, pure, Except.pure]
    split
    · exact putDigitInOutputBuffer_alike hs1 _
    · exact hs1

theorem stageDecimal_alike {s t : Static} (h : s.Alike t) :
    ExceptRel Static.Alike (stageDecimal s) (stageDecimal t) := by
  unfold stageDecimal
  refine ExceptRel.bind (divideAndPutInOutputBuffer_alike h _) fun a b h => ?_
  refine ExceptRel.bind (divideAndPutInOutputBuffer_alike h _) fun a b h => ?_
  refine ExceptRel.bind (divideAndPutInOutputBuffer_alike h _) fun a b h => ?_
  refine ExceptRel.bind (divideAndPutInOutputBuffer_alike h _) fun a b h => ?_
  refine ExceptRel.bind (divideAndPutInOutputBuffer_alike h _) fun a b h => ?_
  refine ExceptRel.bind (divideAndPutInOutputBuffer_alike h _) fun a b h => ?_
  refine ExceptRel.bind (divideAndPutInOutputBuffer_alike h _) fun a b h => ?_
  refine ExceptRel.bind (divideAndPutInOutputBuffer_alike h _) fun a b h => ?_
  refine ExceptRel.bind (divideAndPutInOutputBuffer_alike h _) fun a b h => ?_
  rw [← h.2]
  exact putDigitInOutputBuffer_alike h _

theorem stageHex_alike {s t : Static} (h : s.Alike t) :
    ExceptRel Static.Alike (stageHex s) (stageHex t) := by
  unfold stageHex
  refine ExceptRel.bind (divideAndPutInOutputBuffer_alike h _) fun a b h => ?_
  refine ExceptRel.bind (divideAndPutInOutputBuffer_alike h _) fun a b h => ?_
  refine ExceptRel.bind (divideAndPutInOutputBuffer_alike h _) fun a b h => ?_
  refine ExceptRel.bind (divideAndPutInOutputBuffer_alike h _) fun a b h => ?_
  refine ExceptRel.bind (divideAndPutInOutputBuffer_alike h _) fun a b h => ?_
  refine ExceptRel.bind (divideAndPutInOutputBuffer_alike h _) fun a b h => ?_
  refine ExceptRel.bind (divideAndPutInOutputBuffer_alike h _) fun a b h => ?_
  rw [← h.2]
  exact putDigitInOutputBuffer_alike h _

theorem ExceptRel.refl {α : Type} (x : Except Fault α) : ExceptRel Eq x x := by
  cases x <;> simp [ExceptRel]

theorem ExceptRel.pure {α : Type} {R : α → α → Prop} {a b : α} (h : R a b) :
    ExceptRel R (Pure.pure a) (Pure.pure b) := h

theorem stageSpecifier_similar {s t : Static} (h : s.Compatible t) (c : Nat)
    (arguments : List Arg) :
    ExceptRel (fun r r' => r.1.Similar r'.1 ∧ r.2 = r'.2)
      (stageSpecifier s c arguments) (stageSpecifier t c arguments) := by
  obtain ⟨sb, sp, sf, sn⟩ := s
  obtain ⟨tb, tp, tf, tn⟩ := t
  obtain ⟨hf, hl⟩ := h
  simp only at hf hl
  subst hf
  have h0 : ∀ f n, Static.Alike ⟨sb, 0, f, n⟩ ⟨tb, 0, f, n⟩ :=
    fun f n => ⟨⟨rfl, rfl, hl, rfl⟩, rfl⟩
  have h1 : ∀ f, Static.Similar ⟨sb, 0, f, sn⟩ ⟨tb, 0, f, tn⟩ :=
    fun f => ⟨rfl, rfl, hl, rfl⟩
  unfold stageSpecifier
  split
  · refine ExceptRel.bind (ExceptRel.refl _) fun a b hab => ?_
    subst hab
    obtain ⟨v, rest⟩ := a
    have hA : Static.Alike
        (if (c = 100 ∨ c = 105) ∧ v ≥ 2147483648 then
          putInOutputBuffer ⟨sb, 0, sf, twosComplement v⟩ 45 else ⟨sb, 0, sf, v⟩)
        (if (c = 100 ∨ c = 105) ∧ v ≥ 2147483648 then
          putInOutputBuffer ⟨tb, 0, sf, twosComplement v⟩ 45 else ⟨tb, 0, sf, v⟩) := by
      split
      · exact ⟨putInOutputBuffer_similar (h0 _ _).1 45, rfl⟩
      · exact h0 _ _
    refine ExceptRel.bind (stageDecimal_alike hA) fun a b hab => ?_
    obtain ⟨⟨hp, hf', hl', ht'⟩, _⟩ := hab
    exact ExceptRel.pure ⟨⟨hp, by simp only [hf'], hl', ht'⟩, rfl⟩
  · split
    · refine ExceptRel.bind (ExceptRel.refl _) fun a b hab => ?_
      subst hab
      obtain ⟨v, rest⟩ := a
      by_cases h88 : c = 88
      · simp only [h88, if_true]
        refine ExceptRel.bind (stageHex_alike (h0 _ _)) fun a b hab => ?_
        exact ExceptRel.pure ⟨hab.1, rfl⟩
      · simp only [h88, if_false]
        refine ExceptRel.bind (stageHex_alike (h0 _ _)) fun a b hab => ?_
        exact ExceptRel.pure ⟨hab.1, rfl⟩
    · split
      · refine ExceptRel.bind (ExceptRel.refl _) fun a b hab => ?_
        subst hab
        obtain ⟨v, rest⟩ := a
        exact ExceptRel.pure ⟨putInOutputBuffer_similar (h1 _) _, rfl⟩
      · split
        · refine ExceptRel.bind (ExceptRel.refl _) fun a b hab => ?_
          subst hab
          obtain ⟨p, rest⟩ := a
          exact ExceptRel.pure ⟨h1 _, rfl⟩
        · split
          · exact ExceptRel.pure ⟨putInOutputBuffer_similar (h1 _) _, rfl⟩
          · exact ExceptRel.pure ⟨h1 _, rfl⟩

theorem parseFlagsWidth_compatible {s t : Static} (h : s.Compatible t) (format : List Nat) :
    (parseFlagsWidth s format).1.Compatible (parseFlagsWidth t format).1 ∧
      (parseFlagsWidth s format).2 = (parseFlagsWidth t format).2 := by
  obtain ⟨hf, hl⟩ := h
  by_cases h48 : 48 = readByte format
  · simp only [parseFlagsWidth, h48, if_true, and_true]
    exact ⟨by simp only [hf], hl⟩
  · simp only [parseFlagsWidth, h48, if_false, and_true]
    exact ⟨hf, hl⟩

theorem directive_same {s t : Static} (h : s.Compatible t) (format : List Nat)
    (arguments : List Arg) :
    ExceptRel Directive.Same (directive s format arguments) (directive t format arguments) := by
  obtain ⟨hc, hrest⟩ := parseFlagsWidth_compatible h format
  unfold directive
  rcases hps : parseFlagsWidth s format with ⟨s1, f1, c1, w1⟩
  rcases hpt : parseFlagsWidth t format with ⟨t1, f2, c2, w2⟩
  rw [hps, hpt] at hrest hc
  simp only [Prod.mk.injEq] at hrest
  obtain ⟨rfl, rfl, rfl⟩ := hrest
  simp only
  refine ExceptRel.bind (stageSpecifier_similar hc _ _) fun a b hab => ?_
  obtain ⟨s2, src, rest⟩ := a
  obtain ⟨t2, src', rest'⟩ := b
  obtain ⟨hsim, heq⟩ := hab
  simp only at hsim
  have hflags : s2.embpf_InternalFlags = t2.embpf_InternalFlags := hsim.2.1
  simp only [Prod.mk.injEq] at heq
  obtain ⟨rfl, rfl⟩ := heq
  refine ExceptRel.pure ⟨⟨hsim.2.1, ?_⟩, rfl, rfl, ?_⟩
  · simp only [List.length_set]
    exact hsim.2.2.1
  · cases src with
    | buffer =>
      simp only [Source.bytes, emitDirective_eq, terminated_similar hsim, hflags]
    | caller p =>
      simp only [Source.bytes, hflags]

theorem mainLoop_same (fuel : Nat) {s t : Static} (h : s.Compatible t) (format : List Nat)
    (c : Nat) (arguments : List Arg) (out : List Nat) :
    ExceptRel Result.Same (mainLoop fuel s format c arguments out)
      (mainLoop fuel t format c arguments out) := by
  induction fuel generalizing s t format c arguments out with
  | zero => simp [mainLoop, ExceptRel]
  | succ fuel ih =>
    unfold mainLoop
    split
    · exact ⟨rfl, rfl, rfl, h⟩
    · split
      · exact ih h _ _ _ _
      · have hd := directive_same h format arguments
        rcases hds : directive s format arguments with e | d <;>
          rcases hdt : directive t format arguments with e' | d' <;>
          rw [hds, hdt] at hd <;> simp only [ExceptRel] at hd
        · subst hd
          simp [ExceptRel]
        · obtain ⟨hc, hf, ha, he⟩ := hd
          simp only [hf, ha, he]
          exact ih hc _ _ _ _

theorem embedded_printf_same {s t : Static}
    (h : s.outputBuffer.length = t.outputBuffer.length) (format : List Nat)
    (arguments : List Arg) :
    ExceptRel Result.Same (embedded_printf s format arguments)
      (embedded_printf t format arguments) :=
  mainLoop_same _ (s := { s with embpf_InternalFlags := 0 })
    (t := { t with embpf_InternalFlags := 0 }) ⟨rfl, h⟩ _ _ _ _

theorem emitted_eq_of_length {s t : Static}
    (h : s.outputBuffer.length = t.outputBuffer.length) (format : List Nat)
    (arguments : List Arg) : emitted s format arguments = emitted t format arguments := by
  have hs := embedded_printf_same h format arguments
  unfold emitted
  rcases hx : embedded_printf s format arguments with e | r <;>
    rcases hy : embedded_printf t format arguments with e' | r' <;>
    rw [hx, hy] at hs <;> simp only [ExceptRel] at hs
  · subst hs; rfl
  · simp only [Except.map, hs.1]

/-! ## The scanning loop: fuel and output -/

theorem widthLoop_length (format : List Nat) (c w : Nat) :
    (widthLoop format c w).1.length ≤ format.length := by
  induction format generalizing c w with
  | nil =>
    unfold widthLoop
    split <;> simp
  | cons a rest ih =>
    unfold widthLoop
    split
    · exact Nat.le_succ_of_le (ih _ _)
    · exact Nat.le_refl _

theorem parseFlagsWidth_length (s : Static) (format : List Nat) :
    (parseFlagsWidth s format).2.1.length ≤ format.length := by
  have ha : ∀ l : List Nat, (advance l).length ≤ l.length := fun l => by
    cases l <;> simp [advance]
  by_cases h : 48 = readByte format
  · simp only [parseFlagsWidth, h, if_true]
    exact (widthLoop_length _ _ _).trans ((ha _).trans (ha _))
  · simp only [parseFlagsWidth, h, if_false]
    exact (widthLoop_length _ _ _).trans (ha _)

theorem directive_length {s : Static} {format : List Nat} {arguments : List Arg} {d : Directive}
    (h : directive s format arguments = .ok d) : d.format.length ≤ format.length := by
  unfold directive at h
  simp only [bind, Except.bind, pure, Except.pure] at h
  split at h
  · cases h
  · cases h
    exact parseFlagsWidth_length s format

theorem mainLoop_succ (fuel : Nat) (s : Static) (format : List Nat) (c : Nat)
    (arguments : List Arg) (out : List Nat) :
    mainLoop (fuel + 1) s format c arguments out =
      if c = 0 then
        .ok { out := out, arguments := arguments, static := s, format := format }
      else if 37 ≠ c then
        mainLoop fuel s (advance format) (readByte format) arguments (out ++ [c])
      else
        match directive s format arguments with
        | .error e => .error e
        | .ok d =>
          mainLoop fuel d.static (advance d.format) (readByte d.format) d.arguments
            (out ++ d.emitted) := by
  rw [mainLoop]

theorem mainLoop_fuel (fuel : Nat) (s : Static) (format : List Nat) (c : Nat)
    (arguments : List Arg) (out : List Nat)
    (h : (if c = 0 then 0 else format.length + 1) < fuel) :
    mainLoop (fuel + 1) s format c arguments out = mainLoop fuel s format c arguments out := by
  induction fuel generalizing s format c arguments out with
  | zero => omega
  | succ k ih =>
    have next : ∀ f : List Nat, f.length ≤ format.length → c ≠ 0 →
        (if readByte f = 0 then 0 else (advance f).length + 1) < k := by
      intro f hf hc
      rw [if_neg hc] at h
      cases f with
      | nil => simp [readByte]; omega
      | cons x r =>
        simp only [readByte, advance, List.headD_cons, List.tail_cons, List.length_cons] at hf ⊢
        split <;> omega
    rw [mainLoop_succ k s format c arguments out, mainLoop_succ (k + 1) s format c arguments out]
    by_cases hc : c = 0
    · simp [hc]
    · simp only [hc, if_false]
      split
      · exact ih _ _ _ _ _ (next format (Nat.le_refl _) hc)
      · cases hd : directive s format arguments with
        | error e => rfl
        | ok d => exact ih _ _ _ _ _ (next d.format (directive_length hd) hc)

theorem mainLoop_fuel_le {fuel fuel1 : Nat} (s : Static) (format : List Nat) (c : Nat)
    (arguments : List Arg) (out : List Nat)
    (h : (if c = 0 then 0 else format.length + 1) < fuel) (hle : fuel ≤ fuel1) :
    mainLoop fuel1 s format c arguments out = mainLoop fuel s format c arguments out := by
  induction hle with
  | refl => rfl
  | step hm ih => rw [mainLoop_fuel _ _ _ _ _ _ (Nat.lt_of_lt_of_le h hm), ih]

theorem mainLoop_out (fuel : Nat) (s : Static) (format : List Nat) (c : Nat)
    (arguments : List Arg) (out1 out2 : List Nat) :
    mainLoop fuel s format c arguments (out1 ++ out2) =
      (mainLoop fuel s format c arguments out2).map fun r => { r with out := out1 ++ r.out } := by
  induction fuel generalizing s format c arguments out2 with
  | zero => rfl
  | succ k ih =>
    rw [mainLoop_succ k s format c arguments out2,
      mainLoop_succ k s format c arguments (out1 ++ out2)]
    split
    · rfl
    · split
      · rw [List.append_assoc, ih]
      · cases hd : directive s format arguments with
        | error e => rfl
        | ok d =>
          simp only
          rw [List.append_assoc, ih]

/-! ## Single directives -/

theorem directive_percent (s : Static) (h : 2 ≤ s.outputBuffer.length) (format : List Nat)
    (arguments : List Arg) :
    directive s (37 :: format) arguments =
      .ok { static := { s with outputBuffer := (s.outputBuffer.set 0 37).set 1 0,
                               outputBufferPtr := 1 },
            format := format, arguments := arguments, emitted := [37] } := by
  obtain ⟨buf, p, f, n⟩ := s
  match buf, h with
  | b0 :: b1 :: rest, _ =>
    simp [directive, parseFlagsWidth, readByte, advance, widthLoop, isWidthDigit, stageSpecifier,
      putInOutputBuffer, emitDirective, Source.bytes, subtractLength, padLoop, copyLoop,
      bind, Except.bind, pure, Except.pure]

/-- C9: `"%%"` emits the one byte `'%'` and leaves the argument cursor where it was, whatever
the arguments; and a format that starts with `"%%"` emits `'%'` followed by what the rest of the
format emits on the same arguments, the argument cursor ending in the same place (or both calls
stop with the same fault). -/
theorem percent_percent_consumes_no_argument (s : Static) (h : s.outputBuffer.length = 12)
    (arguments : List Arg) (format : List Nat) :
    (∃ r, embedded_printf s (cstring "%%") arguments = .ok r ∧ r.out = text "%" ∧
        r.arguments = arguments) ∧
      ExceptRel (fun r q => r.out = 37 :: q.out ∧ r.arguments = q.arguments)
        (embedded_printf s (37 :: 37 :: format) arguments)
        (embedded_printf s format arguments) := by
  have h2 : 2 ≤ s.outputBuffer.length := by omega
  constructor
  · refine ⟨{ out := [37], arguments := arguments,
                static := { s with embpf_InternalFlags := 0,
                                   outputBuffer := (s.outputBuffer.set 0 37).set 1 0,
                                   outputBufferPtr := 1 },
                format := [] }, ?_, rfl, rfl⟩
    show mainLoop 4 _ [37, 0] 37 arguments [] = _
    rw [mainLoop_succ, if_neg (by decide), if_neg (by decide),
      directive_percent { s with embpf_InternalFlags := 0 } h2]
    simp only [readByte, advance, List.headD_cons, List.tail_cons, List.nil_append]
    rw [mainLoop_succ, if_pos rfl]
  · show ExceptRel _ (mainLoop (format.length + 2 + 1) _ (37 :: format) 37 arguments [])
      (mainLoop (format.length + 1) _ (advance format) (readByte format) arguments [])
    rw [mainLoop_succ, if_neg (by decide), if_neg (by decide),
      directive_percent { s with embpf_InternalFlags := 0 } h2]
    simp only
    have hfuel : (if readByte format = 0 then 0 else (advance format).length + 1) <
        format.length + 1 := by
      cases format with
      | nil => simp [readByte]
      | cons x r => simp only [readByte, advance, List.headD_cons, List.tail_cons,
          List.length_cons]; split <;> omega
    rw [mainLoop_fuel _ _ _ _ _ _ hfuel, ← List.append_nil ([] ++ [37]), mainLoop_out]
    have hsame := mainLoop_same (format.length + 1)
      (s := { s with embpf_InternalFlags := 0, outputBuffer := (s.outputBuffer.set 0 37).set 1 0,
                     outputBufferPtr := 1 })
      (t := { s with embpf_InternalFlags := 0 })
      ⟨rfl, by simp⟩ (advance format) (readByte format) arguments []
    revert hsame
    generalize mainLoop (format.length + 1) _ (advance format) (readByte format) arguments [] = x
    generalize mainLoop (format.length + 1) _ (advance format) (readByte format) arguments [] = y
    intro hsame
    cases x <;> cases y <;> simp only [ExceptRel] at hsame
    · exact hsame
    · exact ⟨by simp [hsame.1], hsame.2.1⟩

theorem percent_percent_consumes_no_argument_witness :
    Static.initial.outputBuffer.length = 12 ∧
      ((∃ r, embedded_printf Static.initial (cstring "%%") [Arg.word 65] = .ok r ∧
          r.out = text "%" ∧ r.arguments = [Arg.word 65]) ∧
        ExceptRel (fun r q => r.out = 37 :: q.out ∧ r.arguments = q.arguments)
          (embedded_printf Static.initial (37 :: 37 :: cstring "%c") [Arg.word 65])
          (embedded_printf Static.initial (cstring "%c") [Arg.word 65])) :=
  ⟨by decide,
    percent_percent_consumes_no_argument Static.initial (by decide) [Arg.word 65] (cstring "%c")⟩

/-- C4: the two's complement of the bit pattern `0x80000000` is `2147483648`, and `"%d"` and
`"%i"` with that argument emit `"-2147483648"`. -/
theorem int32_min_emits_magnitude (s : Static) (h : s.outputBuffer.length = 12) :
    twosComplement 0x80000000 = 2147483648 ∧
      emitted s (cstring "%d") [Arg.word 0x80000000] = .ok (text "-2147483648") ∧
      emitted s (cstring "%i") [Arg.word 0x80000000] = .ok (text "-2147483648") := by
  have hl : s.outputBuffer.length = Static.initial.outputBuffer.length := by rw [h]; decide
  refine ⟨by decide, ?_, ?_⟩
  · rw [emitted_eq_of_length hl]; decide!
  · rw [emitted_eq_of_length hl]; decide!

theorem int32_min_emits_magnitude_witness :
    Static.initial.outputBuffer.length = 12 ∧
      (twosComplement 0x80000000 = 2147483648 ∧
        emitted Static.initial (cstring "%d") [Arg.word 0x80000000] = .ok (text "-2147483648") ∧
        emitted Static.initial (cstring "%i") [Arg.word 0x80000000] = .ok (text "-2147483648")) :=
  ⟨by decide, int32_min_emits_magnitude Static.initial (by decide)⟩

/-- C10: `"%c"` with an argument `v` whose low eight bits are not all zero emits the single byte
`v % 256`; the value `65` emits `"A"`. -/
theorem char_emits_low_byte (s : Static) (h : s.outputBuffer.length = 12) (v : Nat)
    (hv : v % 256 ≠ 0) :
    emitted s (cstring "%c") [Arg.word v] = .ok [v % 256] ∧
      emitted s (cstring "%c") [Arg.word 65] = .ok (text "A") := by
  have hl : s.outputBuffer.length = Static.initial.outputBuffer.length := by rw [h]; decide
  have hmod : v % 4294967296 % 256 = v % 256 := Nat.mod_mod_of_dvd v (by decide)
  refine ⟨?_, ?_⟩
  · rw [emitted_eq_of_length hl]
    simp [emitted, embedded_printf, cstring, mainLoop, readByte, advance, directive,
      parseFlagsWidth, widthLoop, isWidthDigit, stageSpecifier, vaArgWord, putInOutputBuffer,
      emitDirective, Source.bytes, subtractLength, padLoop, copyLoop, Except.map, Static.initial,
      hmod, hv, bind, Except.bind, pure, Except.pure]
  · rw [emitted_eq_of_length hl]; decide!

theorem char_emits_low_byte_witness :
    Static.initial.outputBuffer.length = 12 ∧ 321 % 256 ≠ 0 ∧
      (emitted Static.initial (cstring "%c") [Arg.word 321] = .ok [321 % 256] ∧
        emitted Static.initial (cstring "%c") [Arg.word 65] = .ok (text "A")) :=
  ⟨by decide, by decide, char_emits_low_byte Static.initial (by decide) 321 (by decide)⟩

set_option maxRecDepth 1000000 in
theorem parseFlagsWidth_decimalDigits :
    ∀ W < 256, parseFlagsWidth Static.initial (decimalDigits W ++ [115, 0]) =
      (if W = 0 then { Static.initial with embpf_InternalFlags := 2 } else Static.initial,
        [0], 115, W) ∧ (48 = readByte (decimalDigits W ++ [115, 0]) ↔ W = 0) := by
  decide!

theorem parseFlagsWidth_snd (s t : Static) (format : List Nat) :
    (parseFlagsWidth s format).2 = (parseFlagsWidth t format).2 := by
  by_cases h48 : 48 = readByte format
  · simp only [parseFlagsWidth, h48, if_true]
  · simp only [parseFlagsWidth, h48, if_false]

theorem parseFlagsWidth_string (s : Static) (hs : s.embpf_InternalFlags = 0) (W : Nat)
    (hW : W < 256) :
    parseFlagsWidth s (decimalDigits W ++ [115, 0]) =
      ({ s with embpf_InternalFlags := if W = 0 then 2 else 0 }, [0], 115, W) := by
  obtain ⟨hp, h48⟩ := parseFlagsWidth_decimalDigits W hW
  have hsnd := parseFlagsWidth_snd s Static.initial (decimalDigits W ++ [115, 0])
  rw [hp] at hsnd
  have hfst : (parseFlagsWidth s (decimalDigits W ++ [115, 0])).1 =
      { s with embpf_InternalFlags := if W = 0 then 2 else 0 } := by
    obtain ⟨buf, p, f, n⟩ := s
    simp only at hs
    subst hs
    by_cases h0 : W = 0
    · simp only [parseFlagsWidth, h48.mpr h0, h0, if_true]
      rfl
    · have : ¬ 48 = readByte (decimalDigits W ++ [115, 0]) := fun h => h0 (h48.mp h)
      simp only [parseFlagsWidth, this, h0, if_false]
  exact Prod.ext hfst hsnd

theorem directive_string (s : Static) (hs : s.embpf_InternalFlags = 0) (W : Nat) (hW : W < 256)
    (str junk : List Nat) (hstr : ∀ b ∈ str, b ≠ 0) (rest : List Arg) :
    directive s (decimalDigits W ++ [115, 0]) (Arg.str (str ++ 0 :: junk) :: rest) =
      .ok { static := { s with embpf_InternalFlags := if W = 0 then 2 else 0,
                               outputBufferPtr := 0,
                               outputBuffer := s.outputBuffer.set 0 0 },
            format := [0], arguments := rest,
            emitted := List.replicate (W - str.length) 32 ++ str } := by
  unfold directive
  rw [parseFlagsWidth_string s hs W hW]
  have ht := takeWhile_terminated str junk hstr
  simp only [stageSpecifier, vaArgStr, bind, Except.bind, pure, Except.pure, Source.bytes,
    emitDirective_eq]
  by_cases h0 : W = 0
  · subst h0
    simp [ht]
  · simp [h0, logicalAnd, ht]

theorem directive_string_plain (s : Static) (str junk : List Nat) (hstr : ∀ b ∈ str, b ≠ 0)
    (rest : List Arg) :
    directive s [115, 0] (Arg.str (str ++ 0 :: junk) :: rest) =
      .ok { static := { s with outputBufferPtr := 0, outputBuffer := s.outputBuffer.set 0 0 },
            format := [0], arguments := rest, emitted := str } := by
  have ht := takeWhile_terminated str junk hstr
  simp [directive, parseFlagsWidth, readByte, advance, widthLoop, isWidthDigit, stageSpecifier,
    vaArgStr, bind, Except.bind, pure, Except.pure, Source.bytes, emitDirective_eq, ht]

/-- C8: for a width `W < 256` written in decimal and a string `str` without a zero byte, stored
with its terminator in the caller's memory, `"%Ws"` emits `W - |str|` spaces followed by `str`,
and `"%s"` emits `str`; the only write to the staging buffer is the terminator at its start, so
`str` may be longer than the buffer.  `"%s"` with `"hi"` emits `"hi"`, `"%5s"` emits `"   hi"`. -/
theorem string_passthrough (s : Static) (W : Nat) (hW : W < 256) (str junk : List Nat)
    (hstr : ∀ b ∈ str, b ≠ 0) :
    (∃ r, embedded_printf s (37 :: (decimalDigits W ++ [115, 0])) [Arg.str (str ++ 0 :: junk)]
          = .ok r ∧
        r.out = List.replicate (W - str.length) 32 ++ str ∧
        r.static.outputBuffer = s.outputBuffer.set 0 0) ∧
      (∃ r, embedded_printf s (cstring "%s") [Arg.str (str ++ 0 :: junk)] = .ok r ∧
        r.out = str ∧ r.static.outputBuffer = s.outputBuffer.set 0 0) ∧
      emitted s (cstring "%s") [Arg.str (cstring "hi")] = .ok (text "hi") ∧
      emitted s (cstring "%5s") [Arg.str (cstring "hi")] = .ok (text "   hi") := by
  have general : ∀ (W : Nat), W < 256 → ∀ (str junk : List Nat), (∀ b ∈ str, b ≠ 0) →
      embedded_printf s (37 :: (decimalDigits W ++ [115, 0])) [Arg.str (str ++ 0 :: junk)] =
        .ok { out := List.replicate (W - str.length) 32 ++ str, arguments := [],
              static := { s with embpf_InternalFlags := if W = 0 then 2 else 0,
                                 outputBufferPtr := 0,
                                 outputBuffer := s.outputBuffer.set 0 0 },
              format := [] } := by
    intro W hW str junk hstr
    unfold embedded_printf
    simp only [readByte, advance, List.headD_cons, List.tail_cons, List.length_cons,
      List.length_append, List.length_nil]
    rw [mainLoop_succ, if_neg (by decide), if_neg (by decide),
      directive_string { s with embpf_InternalFlags := 0 } rfl W hW str junk hstr]
    simp only [readByte, advance, List.headD_cons, List.tail_cons]
    rw [mainLoop_succ, if_pos rfl]
    rfl
  have plain : ∀ (str junk : List Nat), (∀ b ∈ str, b ≠ 0) →
      embedded_printf s (cstring "%s") [Arg.str (str ++ 0 :: junk)] =
        .ok { out := str, arguments := [],
              static := { s with embpf_InternalFlags := 0, outputBufferPtr := 0,
                                 outputBuffer := s.outputBuffer.set 0 0 },
              format := [] } := by
    intro str junk hstr
    show mainLoop 4 _ [115, 0] 37 _ [] = _
    rw [mainLoop_succ, if_neg (by decide), if_neg (by decide),
      directive_string_plain { s with embpf_InternalFlags := 0 } str junk hstr]
    simp only [readByte, advance, List.headD_cons, List.tail_cons]
    rw [mainLoop_succ, if_pos rfl]
    rfl
  have hhi : ∀ b ∈ text "hi", b ≠ 0 := by decide
  refine ⟨⟨_, general W hW str junk hstr, rfl, rfl⟩, ⟨_, plain str junk hstr, rfl, rfl⟩, ?_, ?_⟩
  · have := plain (text "hi") [] hhi
    simp only [emitted, Except.map]
    rw [show cstring "hi" = text "hi" ++ 0 :: [] by decide, this]
  · have := general 5 (by decide) (text "hi") [] hhi
    simp only [emitted, Except.map]
    rw [show cstring "%5s" = 37 :: (decimalDigits 5 ++ [115, 0]) by decide,
      show cstring "hi" = text "hi" ++ 0 :: [] by decide, this]
    rfl

theorem string_passthrough_witness :
    (5 < 256 ∧ ∀ b ∈ text "embedded printf", b ≠ 0) ∧
      ((∃ r, embedded_printf Static.initial (37 :: (decimalDigits 5 ++ [115, 0]))
            [Arg.str (text "embedded printf" ++ 0 :: [7])] = .ok r ∧
          r.out = List.replicate (5 - (text "embedded printf").length) 32 ++
            text "embedded printf" ∧
          r.static.outputBuffer = Static.initial.outputBuffer.set 0 0) ∧
        (∃ r, embedded_printf Static.initial (cstring "%s")
            [Arg.str (text "embedded printf" ++ 0 :: [7])] = .ok r ∧
          r.out = text "embedded printf" ∧
          r.static.outputBuffer = Static.initial.outputBuffer.set 0 0) ∧
        emitted Static.initial (cstring "%s") [Arg.str (cstring "hi")] = .ok (text "hi") ∧
        emitted Static.initial (cstring "%5s") [Arg.str (cstring "hi")] = .ok (text "   hi")) :=
  ⟨⟨by decide, by decide⟩,
    string_passthrough Static.initial 5 (by decide) (text "embedded printf") [7] (by decide)⟩

/-! ## Mixed formats, prefixes and zero -/

/-- C11: `"x=%d, y=%04X"` with `-3` and `255` emits `"x=-3, y=000000FF"`, not `"x=-3, y=00FF"`:
the `0` flag makes every leading zero of the hexadecimal number appear. -/
theorem mixed_format_emits_leading_zeros :
    emitted Static.initial (cstring "x=%d, y=%04X") [Arg.word (4294967296 - 3), Arg.word 255] =
        .ok (text "x=-3, y=000000FF") ∧
      text "x=-3, y=000000FF" ≠ text "x=-3, y=00FF" := by
  decide!

/-- C14: `"%x"` with `1` emits `"1"` and `"%X"` with `1` emits `"00000001"`; with `255` they
emit `"fF"` and `"000000FF"`.  None of these outputs begins with `"0x"`. -/
theorem hex_output_has_no_prefix :
    emitted Static.initial (cstring "%x") [Arg.word 1] = .ok (text "1") ∧
      emitted Static.initial (cstring "%X") [Arg.word 1] = .ok (text "00000001") ∧
      emitted Static.initial (cstring "%x") [Arg.word 255] = .ok (text "fF") ∧
      emitted Static.initial (cstring "%X") [Arg.word 255] = .ok (text "000000FF") ∧
      ¬ text "0x" <+: text "1" ∧ ¬ text "0x" <+: text "00000001" ∧
      ¬ text "0x" <+: text "fF" ∧ ¬ text "0x" <+: text "000000FF" := by
  decide!

/-- C19: with the number `10` and the place value `10`, `divideAndPutInOutputBuffer` counts `0`
subtractions and leaves the number at `10`, where `10 / 10 = 1` and `10 % 10 = 0`; with `32` and
`16` it counts `1` and leaves `16`. -/
theorem divide_leaves_place_value :
    divideLoop 10 (10 / 10 + 1) 10 0 = .ok (10, 0) ∧
      (divideAndPutInOutputBuffer { Static.initial with u32integerNumber := 10 } 10).map
          (fun s => (s.u32integerNumber, s.outputBufferPtr)) = .ok (10, 0) ∧
      (divideAndPutInOutputBuffer { Static.initial with u32integerNumber := 32 } 16).map
          (fun s => (s.u32integerNumber, s.outputBuffer.take s.outputBufferPtr)) =
        .ok (16, text "1") ∧
      10 / 10 = 1 ∧ 10 % 10 = 0 ∧ 32 / 16 = 2 ∧ 32 % 16 = 0 := by
  decide!

/-- C20: `"%X"` with `0` emits the eight bytes `"00000000"`; `"%u"`, `"%d"`, `"%i"` and `"%x"`
with `0` emit `"0"`. -/
theorem zero_with_capitals_emits_eight_zeros :
    emitted Static.initial (cstring "%X") [Arg.word 0] = .ok (text "00000000") ∧
      emitted Static.initial (cstring "%u") [Arg.word 0] = .ok (text "0") ∧
      emitted Static.initial (cstring "%d") [Arg.word 0] = .ok (text "0") ∧
      emitted Static.initial (cstring "%i") [Arg.word 0] = .ok (text "0") ∧
      emitted Static.initial (cstring "%x") [Arg.word 0] = .ok (text "0") := by
  decide!

/-! ## Literal text -/

theorem mainLoop_literal (str junk : List Nat) (hstr : ∀ b ∈ str, b ≠ 0 ∧ b ≠ 37) (fuel : Nat)
    (s : Static) (c : Nat) (hc : c ≠ 0 ∧ c ≠ 37) (arguments : List Arg) (out : List Nat)
    (hfuel : str.length + 2 ≤ fuel) :
    mainLoop fuel s (str ++ 0 :: junk) c arguments out =
      .ok { out := out ++ c :: str, arguments := arguments, static := s, format := junk } := by
  induction str generalizing fuel c out with
  | nil =>
    obtain ⟨k, rfl⟩ : ∃ k, fuel = k + 1 + 1 := ⟨fuel - 2, by simp at hfuel; omega⟩
    rw [mainLoop_succ, if_neg hc.1, if_pos (Ne.symm hc.2)]
    simp only [List.nil_append, readByte, advance, List.headD_cons, List.tail_cons]
    rw [mainLoop_succ, if_pos rfl]
  | cons b rest ih =>
    obtain ⟨k, rfl⟩ : ∃ k, fuel = k + 1 := ⟨fuel - 1, by simp at hfuel; omega⟩
    rw [mainLoop_succ, if_neg hc.1, if_pos (Ne.symm hc.2)]
    simp only [List.cons_append, readByte, advance, List.headD_cons, List.tail_cons]
    rw [ih (fun x hx => hstr x (List.mem_cons_of_mem _ hx)) k b (hstr b (List.mem_cons_self _ _))
      (out ++ [c]) (by simp at hfuel ⊢; omega)]
    simp

/-- C13: a format without a `'%'` byte is emitted as it is, up to and excluding the terminator,
and the argument cursor does not move. -/
theorem literal_text_is_emitted_unchanged (s : Static) (str junk : List Nat)
    (arguments : List Arg) (hstr : ∀ b ∈ str, b ≠ 0 ∧ b ≠ 37) :
    embedded_printf s (str ++ 0 :: junk) arguments =
      .ok { out := str, arguments := arguments, static := { s with embpf_InternalFlags := 0 },
            format := junk } := by
  unfold embedded_printf
  cases str with
  | nil =>
    simp only [List.nil_append, readByte, advance, List.headD_cons, List.tail_cons,
      List.length_cons]
    rw [mainLoop_succ, if_pos rfl]
  | cons c rest =>
    simp only [List.cons_append, readByte, advance, List.headD_cons, List.tail_cons]
    rw [mainLoop_literal rest junk (fun x hx => hstr x (List.mem_cons_of_mem _ hx)) _ _ c
      (hstr c (List.mem_cons_self _ _)) arguments [] (by simp)]
    simp

theorem literal_text_is_emitted_unchanged_witness :
    (∀ b ∈ text "hello, world", b ≠ 0 ∧ b ≠ 37) ∧
      embedded_printf Static.initial (text "hello, world" ++ 0 :: [37, 100]) [Arg.word 7] =
        .ok { out := text "hello, world", arguments := [Arg.word 7],
              static := { Static.initial with embpf_InternalFlags := 0 },
              format := [37, 100] } :=
  ⟨by decide,
    literal_text_is_emitted_unchanged Static.initial (text "hello, world") [37, 100] [Arg.word 7]
      (by decide)⟩

/-! ## Earlier calls -/

/-- C17: two calls with the same format and arguments emit the same bytes, leave the argument
cursor and the format pointer in the same place, or stop with the same fault, whatever the
static variables held before each of them (the buffer being twelve bytes in both). -/
theorem output_independent_of_static_state (s t : Static) (hs : s.outputBuffer.length = 12)
    (ht : t.outputBuffer.length = 12) (format : List Nat) (arguments : List Arg) :
    emitted s format arguments = emitted t format arguments ∧
      ExceptRel (fun r q => r.out = q.out ∧ r.arguments = q.arguments ∧ r.format = q.format)
        (embedded_printf s format arguments) (embedded_printf t format arguments) := by
  have hl : s.outputBuffer.length = t.outputBuffer.length := by rw [hs, ht]
  refine ⟨emitted_eq_of_length hl format arguments, ?_⟩
  have h := embedded_printf_same hl format arguments
  revert h
  cases embedded_printf s format arguments <;> cases embedded_printf t format arguments <;>
    simp only [ExceptRel] <;> intro h
  · exact h
  · exact h
  · exact h
  · exact ⟨h.1, h.2.1, h.2.2.1⟩

theorem output_independent_of_static_state_witness :
    (Static.initial.outputBuffer.length = 12 ∧
      (Static.mk (text "-2147483648" ++ [7]) 11 7 4294967295).outputBuffer.length = 12) ∧
    (emitted Static.initial (cstring "%5d|%x|%s") [Arg.word 42, Arg.word 7, Arg.str (cstring "a")]
        = emitted (Static.mk (text "-2147483648" ++ [7]) 11 7 4294967295) (cstring "%5d|%x|%s")
            [Arg.word 42, Arg.word 7, Arg.str (cstring "a")] ∧
      ExceptRel (fun r q => r.out = q.out ∧ r.arguments = q.arguments ∧ r.format = q.format)
        (embedded_printf Static.initial (cstring "%5d|%x|%s")
          [Arg.word 42, Arg.word 7, Arg.str (cstring "a")])
        (embedded_printf (Static.mk (text "-2147483648" ++ [7]) 11 7 4294967295)
          (cstring "%5d|%x|%s") [Arg.word 42, Arg.word 7, Arg.str (cstring "a")])) :=
  ⟨⟨by decide, by decide⟩,
    output_independent_of_static_state Static.initial
      (Static.mk (text "-2147483648" ++ [7]) 11 7 4294967295) (by decide) (by decide)
      (cstring "%5d|%x|%s") [Arg.word 42, Arg.word 7, Arg.str (cstring "a")]⟩

/-! ## The shape of a directive -/

theorem widthLoop_digits (digs : List Nat) (hd : ∀ b ∈ digs, isWidthDigit b = true) (w : Nat) :
    ∃ W, ∀ c rest, isWidthDigit c = false →
      widthLoop (advance (digs ++ c :: rest)) (readByte (digs ++ c :: rest)) w = (rest, c, W) := by
  induction digs generalizing w with
  | nil =>
    refine ⟨w, fun c rest hc => ?_⟩
    simp only [List.nil_append, readByte, advance, List.headD_cons, List.tail_cons]
    cases rest <;> simp [widthLoop, hc]
  | cons b digs ih =>
    have hb : isWidthDigit b = true := hd b (List.mem_cons_self _ _)
    obtain ⟨W, hW⟩ := ih (fun x hx => hd x (List.mem_cons_of_mem _ hx))
      (((((w <<< 2) + w) <<< 1) % 256 + (b - 48)) % 256)
    refine ⟨W, fun c rest hc => ?_⟩
    have := hW c rest hc
    simp only [List.cons_append, readByte, advance, List.headD_cons, List.tail_cons]
    cases hl : digs ++ c :: rest with
    | nil => simp at hl
    | cons x l =>
      rw [hl] at this
      simp only [readByte, advance, List.headD_cons, List.tail_cons] at this
      rw [widthLoop]
      simp only [hb, if_true]
      exact this

theorem parseFlagsWidth_digits (s : Static) (digs : List Nat)
    (hd : ∀ b ∈ digs, isWidthDigit b = true) :
    ∃ s1 W, s1.outputBuffer = s.outputBuffer ∧
      (s1.embpf_InternalFlags = s.embpf_InternalFlags ∨
        s1.embpf_InternalFlags = s.embpf_InternalFlags ||| FLAG_USE_ZERO_PADDING) ∧
      (digs = [] → s1 = s ∧ W = 0) ∧
      ∀ c rest, isWidthDigit c = false →
        parseFlagsWidth s (digs ++ c :: rest) = (s1, rest, c, W) := by
  cases digs with
  | nil =>
    refine ⟨s, 0, rfl, Or.inl rfl, fun _ => ⟨rfl, rfl⟩, fun c rest hc => ?_⟩
    have h48 : ¬ 48 = c := by
      intro h
      subst h
      simp [isWidthDigit] at hc
    simp only [parseFlagsWidth, List.nil_append, readByte, advance, List.headD_cons,
      List.tail_cons, h48, if_false]
    cases rest <;> simp [widthLoop, hc]
  | cons b digs =>
    by_cases h48 : 48 = b
    · obtain ⟨W, hW⟩ := widthLoop_digits digs (fun x hx => hd x (List.mem_cons_of_mem _ hx)) 0
      refine ⟨{ s with embpf_InternalFlags := s.embpf_InternalFlags ||| FLAG_USE_ZERO_PADDING },
        W, rfl, Or.inr rfl, fun h => by simp at h, fun c rest hc => ?_⟩
      simp only [parseFlagsWidth, List.cons_append, readByte, advance, List.headD_cons,
        List.tail_cons, h48, if_true]
      have := hW c rest hc
      simp only [readByte, advance] at this
      rw [this]
    · obtain ⟨W, hW⟩ := widthLoop_digits (b :: digs) hd 0
      refine ⟨s, W, rfl, Or.inl rfl, fun h => by simp at h, fun c rest hc => ?_⟩
      simp only [parseFlagsWidth, List.cons_append, readByte, advance, List.headD_cons,
        List.tail_cons, h48, if_false]
      have := hW c rest hc
      simp only [List.cons_append, readByte, advance, List.headD_cons, List.tail_cons] at this
      rw [this]

theorem takeWhile_set_zero (l : List Nat) : (l.set 0 0).takeWhile (· != 0) = [] := by
  cases l <;> simp [List.takeWhile]

/-- C12 as stated fails: the directive `"%5q"` emits five spaces. -/
theorem unknown_specifier_with_width_emits_padding :
    emitted Static.initial (cstring "%5q") [] = .ok (text "     ") ∧
      emitted Static.initial (cstring "%5q") [] ≠ .ok [] ∧
      emitted Static.initial (cstring "%05q") [] = .ok (text "00000") := by
  decide!

/-- C12, amended: a directive whose specifier is none of `c d i s u x X %` emits nothing but
padding, namely as many padding bytes (`'0'` or `' '`) as its parsed width, so nothing at all when
it has no flag and no width; it leaves the argument cursor where it was, and the format pointer
just after the specifier. -/
theorem unknown_specifier_emits_only_padding (s : Static) (digs rest : List Nat) (c : Nat)
    (arguments : List Arg) (hd : ∀ b ∈ digs, isWidthDigit b = true)
    (hc : isWidthDigit c = false)
    (hu : c ≠ 99 ∧ c ≠ 100 ∧ c ≠ 105 ∧ c ≠ 115 ∧ c ≠ 117 ∧ c ≠ 120 ∧ c ≠ 88 ∧ c ≠ 37) :
    ∃ d pad, directive s (digs ++ c :: rest) arguments = .ok d ∧
      (pad = 48 ∨ pad = 32) ∧
      d.emitted = List.replicate (parseFlagsWidth s (digs ++ c :: rest)).2.2.2 pad ∧
      (digs = [] → d.emitted = []) ∧
      d.arguments = arguments ∧ d.format = rest := by
  obtain ⟨s1, W, _, _, hnil, hp⟩ := parseFlagsWidth_digits s digs hd
  have hparse := hp c rest hc
  obtain ⟨h1, h2, h3, h4, h5, h6, h7, h8⟩ := hu
  have hstage : stageSpecifier s1 c arguments =
      .ok ({ s1 with outputBufferPtr := 0 }, Source.buffer, arguments) := by
    simp [stageSpecifier, h1, h2, h3, h4, h5, h6, h7, h8, pure, Except.pure]
  refine ⟨{ static := { s1 with outputBufferPtr := 0, outputBuffer := s1.outputBuffer.set 0 0 },
            format := rest, arguments := arguments,
            emitted := List.replicate W
              (if logicalAnd s1.embpf_InternalFlags FLAG_USE_ZERO_PADDING then 48 else 32) },
    if logicalAnd s1.embpf_InternalFlags FLAG_USE_ZERO_PADDING then 48 else 32, ?_, ?_, ?_, ?_,
    rfl, rfl⟩
  · unfold directive
    rw [hparse]
    simp only [hstage, bind, Except.bind, pure, Except.pure, Source.bytes, emitDirective_eq,
      takeWhile_set_zero]
    simp
  · split
    · exact Or.inl rfl
    · exact Or.inr rfl
  · rw [hparse]
  · intro h
    rw [(hnil h).2]
    rfl

theorem unknown_specifier_emits_only_padding_witness :
    ((∀ b ∈ text "05", isWidthDigit b = true) ∧ isWidthDigit 113 = false ∧
      (113 ≠ 99 ∧ 113 ≠ 100 ∧ 113 ≠ 105 ∧ 113 ≠ 115 ∧ 113 ≠ 117 ∧ 113 ≠ 120 ∧ 113 ≠ 88 ∧
        113 ≠ 37)) ∧
    ∃ d pad, directive Static.initial (text "05" ++ 113 :: text "|") [Arg.word 9] = .ok d ∧
      (pad = 48 ∨ pad = 32) ∧
      d.emitted =
        List.replicate (parseFlagsWidth Static.initial (text "05" ++ 113 :: text "|")).2.2.2 pad ∧
      (text "05" = [] → d.emitted = []) ∧
      d.arguments = [Arg.word 9] ∧ d.format = text "|" :=
  ⟨⟨by decide, by decide, by decide⟩,
    unknown_specifier_emits_only_padding Static.initial (text "05") (text "|") 113 [Arg.word 9]
      (by decide) (by decide) (by decide)⟩

theorem stageSpecifier_i_eq_d (s : Static) (arguments : List Arg) :
    stageSpecifier s 105 arguments = stageSpecifier s 100 arguments := by
  simp [stageSpecifier]

theorem SwapDI.length_eq {f g : List Nat} (h : SwapDI f g) : f.length = g.length := by
  induction h with
  | done => rfl
  | literal c _ _ ih => simp [ih]
  | directive digs c c' _ _ _ _ ih => simp [ih]

theorem directive_eq (s : Static) (format : List Nat) (arguments : List Arg) :
    directive s format arguments =
      (stageSpecifier (parseFlagsWidth s format).1 (parseFlagsWidth s format).2.2.1
        arguments).map fun r =>
        { static := { r.1 with outputBuffer := r.1.outputBuffer.set r.1.outputBufferPtr 0 },
          format := (parseFlagsWidth s format).2.1,
          arguments := r.2.2,
          emitted := emitDirective r.1.embpf_InternalFlags (parseFlagsWidth s format).2.2.2
            (r.2.1.bytes
              { r.1 with outputBuffer := r.1.outputBuffer.set r.1.outputBufferPtr 0 }) } := by
  unfold directive
  rcases parseFlagsWidth s format with ⟨s1, f1, c1, w1⟩
  simp only [bind, Except.bind, pure, Except.pure, Except.map]

theorem directive_format {s : Static} {format : List Nat} {arguments : List Arg} {d : Directive}
    (h : directive s format arguments = .ok d) : d.format = (parseFlagsWidth s format).2.1 := by
  rw [directive_eq] at h
  cases hst : stageSpecifier (parseFlagsWidth s format).1 (parseFlagsWidth s format).2.2.1
      arguments with
  | error e => rw [hst] at h; cases h
  | ok r => rw [hst] at h; cases h; rfl

theorem directive_swap (s : Static) (digs : List Nat) (c c' : Nat) (f g : List Nat)
    (arguments : List Arg) (hd : ∀ b ∈ digs, isWidthDigit b = true)
    (hc : isWidthDigit c = false)
    (hcc : c' = c ∨ (c = 105 ∧ c' = 100) ∨ (c = 100 ∧ c' = 105)) :
    directive s (digs ++ c' :: g) arguments =
      (directive s (digs ++ c :: f) arguments).map fun d => { d with format := g } := by
  obtain ⟨s1, W, _, _, _, hp⟩ := parseFlagsWidth_digits s digs hd
  have hc' : isWidthDigit c' = false := by
    rcases hcc with h | ⟨_, h⟩ | ⟨_, h⟩
    · rw [h]; exact hc
    · rw [h]; decide
    · rw [h]; decide
  have hstage : stageSpecifier s1 c' arguments = stageSpecifier s1 c arguments := by
    rcases hcc with h | ⟨h, h'⟩ | ⟨h, h'⟩
    · rw [h]
    · rw [h, h', stageSpecifier_i_eq_d]
    · rw [h, h', stageSpecifier_i_eq_d]
  rw [directive_eq, directive_eq, hp c f hc, hp c' g hc']
  simp only [hstage]
  cases stageSpecifier s1 c arguments with
  | error e => rfl
  | ok r => rfl

theorem mainLoop_swap (fuel : Nat) {F G : List Nat} (h : SwapDI F G) (s : Static)
    (arguments : List Arg) (out : List Nat) :
    ExceptRel (fun r q => r.out = q.out ∧ r.arguments = q.arguments ∧ r.static = q.static)
      (mainLoop fuel s (advance F) (readByte F) arguments out)
      (mainLoop fuel s (advance G) (readByte G) arguments out) := by
  induction fuel generalizing F G s arguments out with
  | zero => simp [mainLoop, ExceptRel]
  | succ k ih =>
    cases h with
    | done =>
      simp only [readByte, advance, List.headD_nil, List.tail_nil]
      rw [mainLoop_succ, if_pos rfl]
      exact ⟨rfl, rfl, rfl⟩
    | @literal c f g hc hfg =>
      simp only [readByte, advance, List.headD_cons, List.tail_cons]
      rw [mainLoop_succ k s f, mainLoop_succ k s g]
      by_cases h0 : c = 0
      · simp only [h0, if_true]
        exact ⟨rfl, rfl, rfl⟩
      · simp only [h0, if_false, if_pos (Ne.symm hc)]
        exact ih hfg s arguments _
    | @directive digs c c' f g hd hc hcc hfg =>
      simp only [readByte, advance, List.headD_cons, List.tail_cons]
      rw [mainLoop_succ k s (digs ++ c :: f), mainLoop_succ k s (digs ++ c' :: g),
        if_neg (by decide), if_neg (by decide), if_neg (by decide), if_neg (by decide),
        directive_swap s digs c c' f g arguments hd hc hcc]
      cases hdir : directive s (digs ++ c :: f) arguments with
      | error e => simp [Except.map, ExceptRel]
      | ok d =>
        simp only [Except.map]
        obtain ⟨s1, W, _, _, _, hp⟩ := parseFlagsWidth_digits s digs hd
        have hdf : d.format = f := by rw [directive_format hdir, hp c f hc]
        rw [hdf]
        exact ih hfg _ _ _

/-- C15: if a format differs from another only in that directives with the specifier `i` have
the specifier `d` instead, or the reverse, the two formats emit the same bytes on the same
arguments and leave the argument cursor in the same place, or stop with the same fault; in
particular `"%i"` and `"%d"` emit the same bytes for every argument. -/
theorem specifier_i_same_as_d (s : Static) (F G : List Nat) (arguments : List Arg)
    (h : SwapDI F G) (n : Nat) :
    emitted s F arguments = emitted s G arguments ∧
      ExceptRel (fun r q => r.out = q.out ∧ r.arguments = q.arguments ∧ r.static = q.static)
        (embedded_printf s F arguments) (embedded_printf s G arguments) ∧
      emitted s (cstring "%i") [Arg.word n] = emitted s (cstring "%d") [Arg.word n] := by
  have key : ∀ (F G : List Nat) (arguments : List Arg), SwapDI F G →
      ExceptRel (fun r q => r.out = q.out ∧ r.arguments = q.arguments ∧ r.static = q.static)
        (embedded_printf s F arguments) (embedded_printf s G arguments) := by
    intro F G arguments h
    unfold embedded_printf
    rw [h.length_eq]
    exact mainLoop_swap _ h _ _ _
  have emit : ∀ (F G : List Nat) (arguments : List Arg), SwapDI F G →
      emitted s F arguments = emitted s G arguments := by
    intro F G arguments h
    have hk := key F G arguments h
    unfold emitted
    revert hk
    cases embedded_printf s F arguments <;> cases embedded_printf s G arguments <;>
      simp only [ExceptRel] <;> intro hk
    · rw [hk]
    · exact hk.elim
    · exact hk.elim
    · simp only [Except.map, hk.1]
  refine ⟨emit F G arguments h, key F G arguments h, emit _ _ _ ?_⟩
  exact SwapDI.directive [] 105 100 (fun _ hb => by simp at hb) (by decide)
    (Or.inr (Or.inl ⟨rfl, rfl⟩)) (SwapDI.literal 0 (by decide) SwapDI.done)

theorem specifier_i_same_as_d_witness :
    SwapDI (cstring "i=%5i, d=%d") (cstring "i=%5d, d=%i") ∧
      (emitted Static.initial (cstring "i=%5i, d=%d") [Arg.word 7, Arg.word 8] =
          emitted Static.initial (cstring "i=%5d, d=%i") [Arg.word 7, Arg.word 8] ∧
        ExceptRel (fun r q => r.out = q.out ∧ r.arguments = q.arguments ∧ r.static = q.static)
          (embedded_printf Static.initial (cstring "i=%5i, d=%d") [Arg.word 7, Arg.word 8])
          (embedded_printf Static.initial (cstring "i=%5d, d=%i") [Arg.word 7, Arg.word 8]) ∧
        emitted Static.initial (cstring "%i") [Arg.word 4294967295] =
          emitted Static.initial (cstring "%d") [Arg.word 4294967295]) :=
  have h : SwapDI (cstring "i=%5i, d=%d") (cstring "i=%5d, d=%i") :=
    SwapDI.literal 105 (by decide) <| SwapDI.literal 61 (by decide) <|
    SwapDI.directive [53] 105 100 (by decide) (by decide) (Or.inr (Or.inl ⟨rfl, rfl⟩)) <|
    SwapDI.literal 44 (by decide) <| SwapDI.literal 32 (by decide) <|
    SwapDI.literal 100 (by decide) <| SwapDI.literal 61 (by decide) <|
    SwapDI.directive [] 100 105 (by decide) (by decide) (Or.inr (Or.inr ⟨rfl, rfl⟩)) <|
    SwapDI.literal 0 (by decide) SwapDI.done
  ⟨h, specifier_i_same_as_d Static.initial _ _ [Arg.word 7, Arg.word 8] h 4294967295⟩

theorem stageSpecifier_cons {c : Nat} (hc : consumesArgument c) (s : Static) (a : Arg)
    (rest : List Arg) :
    stageSpecifier s c (a :: rest) =
      (stageSpecifier s c [a]).map fun r => (r.1, r.2.1, rest) := by
  unfold consumesArgument at hc
  rcases hc with h1 | h1 | h1 | h1 | h1 | h1 | h1 <;> subst h1 <;> cases a <;>
    simp [stageSpecifier, vaArgWord, vaArgStr, bind, Except.bind, pure, Except.pure, Except.map]
  all_goals first
    | (generalize stageDecimal _ = x; cases x <;> rfl)
    | (generalize stageHex _ = x; cases x <;> rfl)

theorem stageSpecifier_nil {c : Nat} (hc : consumesArgument c) (s : Static) :
    stageSpecifier s c [] = .error Fault.badArgument := by
  unfold consumesArgument at hc
  rcases hc with h1 | h1 | h1 | h1 | h1 | h1 | h1 <;> subst h1 <;>
    simp [stageSpecifier, vaArgWord, vaArgStr, bind, Except.bind]

theorem stageSpecifier_skip {c : Nat} (hc : ¬ consumesArgument c) (s : Static)
    (arguments : List Arg) :
    stageSpecifier s c arguments =
      (stageSpecifier s c []).map fun r => (r.1, r.2.1, arguments) := by
  unfold consumesArgument at hc
  simp only [not_or] at hc
  obtain ⟨h1, h2, h3, h4, h5, h6, h7⟩ := hc
  by_cases h37 : c = 37 <;>
    simp [stageSpecifier, h1, h2, h3, h4, h5, h6, h7, h37, pure, Except.pure, Except.map]

theorem directive_cons {s : Static} {format : List Nat}
    (hc : consumesArgument (parseFlagsWidth s format).2.2.1) (a : Arg) (rest : List Arg) :
    directive s format (a :: rest) =
      (directive s format [a]).map fun d => { d with arguments := rest } := by
  rw [directive_eq, directive_eq, stageSpecifier_cons hc]
  cases stageSpecifier (parseFlagsWidth s format).1 (parseFlagsWidth s format).2.2.1 [a] with
  | error e => rfl
  | ok r => rfl

theorem directive_nil {s : Static} {format : List Nat}
    (hc : consumesArgument (parseFlagsWidth s format).2.2.1) :
    directive s format [] = .error Fault.badArgument := by
  rw [directive_eq, stageSpecifier_nil hc]
  rfl

theorem directive_skip {s : Static} {format : List Nat}
    (hc : ¬ consumesArgument (parseFlagsWidth s format).2.2.1) (arguments : List Arg) :
    directive s format arguments =
      (directive s format []).map fun d => { d with arguments := arguments } := by
  rw [directive_eq, directive_eq, stageSpecifier_skip hc]
  cases stageSpecifier (parseFlagsWidth s format).1 (parseFlagsWidth s format).2.2.1 [] with
  | error e => rfl
  | ok r => rfl

theorem directive_arguments {s : Static} {format : List Nat} {arguments : List Arg}
    {d : Directive} (h : directive s format arguments = .ok d) :
    if consumesArgument (parseFlagsWidth s format).2.2.1 then
      ∃ a, arguments = a :: d.arguments ∧
        ∀ rest, directive s format (a :: rest) = .ok { d with arguments := rest }
    else
      d.arguments = arguments ∧
        ∀ others, directive s format others = .ok { d with arguments := others } := by
  split
  · rename_i hc
    cases arguments with
    | nil => rw [directive_nil hc] at h; cases h
    | cons a tl =>
      rw [directive_cons hc] at h
      cases hd : directive s format [a] with
      | error e => rw [hd] at h; cases h
      | ok d1 =>
        rw [hd] at h
        cases h
        refine ⟨a, rfl, fun rest => ?_⟩
        rw [directive_cons hc, hd]
        rfl
  · rename_i hc
    rw [directive_skip hc] at h
    cases hd : directive s format [] with
    | error e => rw [hd] at h; cases h
    | ok d1 =>
      rw [hd] at h
      cases h
      refine ⟨rfl, fun others => ?_⟩
      rw [directive_skip hc, hd]
      rfl

theorem mainLoop_arguments_suffix (fuel : Nat) (s : Static) (format : List Nat) (c : Nat)
    (arguments : List Arg) (out : List Nat) (r : Result)
    (h : mainLoop fuel s format c arguments out = .ok r) : r.arguments <:+ arguments := by
  induction fuel generalizing s format c arguments out with
  | zero => simp [mainLoop] at h
  | succ k ih =>
    rw [mainLoop_succ] at h
    split at h
    · cases h
      exact List.suffix_refl _
    · split at h
      · exact ih _ _ _ _ _ h
      · cases hd : directive s format arguments with
        | error e => rw [hd] at h; cases h
        | ok d =>
          rw [hd] at h
          have hsuf := ih _ _ _ _ _ h
          have hda := directive_arguments hd
          split at hda
          · obtain ⟨a, ha, _⟩ := hda
            rw [ha]
            exact hsuf.trans (List.suffix_cons _ _)
          · rw [← hda.1]
            exact hsuf

/-! ## Whole formats -/

theorem parseFlagsWidth_specifier (s : Static) (digs rest : List Nat) (c : Nat)
    (hd : ∀ b ∈ digs, isWidthDigit b = true) (hc : isWidthDigit c = false) :
    (parseFlagsWidth s (digs ++ c :: rest)).2.2.1 = c := by
  obtain ⟨s1, W, _, _, _, hp⟩ := parseFlagsWidth_digits s digs hd
  rw [hp c rest hc]

theorem mainLoop_items (items : List Item) (hwf : ∀ i ∈ items, i.WellFormed)
    (junk : List Nat) (arguments : List Arg) (fuel : Nat) (s : Static) (k : Nat)
    (out : List Nat) (hfuel : (renderItems items ++ 0 :: junk).length + 1 ≤ fuel) :
    mainLoop fuel s (advance (renderItems items ++ 0 :: junk))
        (readByte (renderItems items ++ 0 :: junk)) (arguments.drop k) out =
      (specRunInOrder s items arguments k).map fun r =>
        { out := out ++ r.2, arguments := arguments.drop (k + consumers items), static := r.1,
          format := junk } := by
  induction items generalizing fuel s k out with
  | nil =>
    obtain ⟨f, rfl⟩ : ∃ f, fuel = f + 1 := ⟨fuel - 1, by simp at hfuel; omega⟩
    simp only [renderItems, List.nil_append, readByte, advance, List.headD_cons, List.tail_cons]
    rw [mainLoop_succ, if_pos rfl]
    simp [specRunInOrder, consumers, Except.map]
  | cons item items ih =>
    obtain ⟨f, rfl⟩ : ∃ f, fuel = f + 1 := ⟨fuel - 1, by simp at hfuel; omega⟩
    have hwf1 := hwf item (List.mem_cons_self _ _)
    have hwf2 : ∀ i ∈ items, i.WellFormed := fun i hi => hwf i (List.mem_cons_of_mem _ hi)
    cases item with
    | literal c =>
      obtain ⟨h0, h37⟩ := hwf1
      simp only [renderItems, Item.render, List.cons_append, List.nil_append, readByte, advance,
        List.headD_cons, List.tail_cons, List.length_cons] at hfuel ⊢
      rw [mainLoop_succ, if_neg h0, if_pos (Ne.symm h37)]
      rw [ih hwf2 f s k (out ++ [c]) (by omega)]
      simp only [specRunInOrder, consumers]
      cases specRunInOrder s items arguments k with
      | error e => rfl
      | ok r => simp [Except.map]
    | directive digs c =>
      obtain ⟨hd, hc⟩ := hwf1
      have hlen : (renderItems items ++ 0 :: junk).length + 1 ≤ f := by
        simp only [renderItems, Item.render, List.cons_append, List.append_assoc,
          List.length_cons, List.length_append] at hfuel ⊢
        omega
      simp only [renderItems, Item.render, List.cons_append, List.append_assoc,
        List.singleton_append, List.nil_append]
      rw [show readByte (37 :: (digs ++ c :: (renderItems items ++ 0 :: junk))) = 37 from rfl,
        show advance (37 :: (digs ++ c :: (renderItems items ++ 0 :: junk))) =
          digs ++ c :: (renderItems items ++ 0 :: junk) from rfl]
      rw [mainLoop_succ, if_neg (by decide), if_neg (by decide),
        directive_swap s digs c c [] (renderItems items ++ 0 :: junk) _ hd hc (Or.inl rfl)]
      have hspec := parseFlagsWidth_specifier s digs [] c hd hc
      simp only [specRunInOrder, consumers]
      by_cases hcons : consumesArgument c
      · simp only [if_pos hcons]
        cases hk : arguments[k]? with
        | none =>
          have hdrop : arguments.drop k = [] :=
            List.drop_eq_nil_of_le (List.getElem?_eq_none_iff.mp hk)
          rw [hdrop, directive_nil (by rw [hspec]; exact hcons)]
          rfl
        | some a =>
          have hdrop : arguments.drop k = a :: arguments.drop (k + 1) := by
            obtain ⟨hlt, ha⟩ := List.getElem?_eq_some_iff.mp hk
            rw [← ha]
            exact List.drop_eq_getElem_cons hlt
          rw [hdrop, directive_cons (by rw [hspec]; exact hcons)]
          dsimp only
          cases directive s (digs ++ [c]) [a] with
          | error e => rfl
          | ok d =>
            simp only [Except.map]
            rw [ih hwf2 f d.static (k + 1) (out ++ d.emitted) hlen]
            cases specRunInOrder d.static items arguments (k + 1) with
            | error e => rfl
            | ok r =>
              simp only [Except.map, List.append_assoc]
              congr 3
              omega
      · simp only [if_neg hcons]
        rw [directive_skip (by rw [hspec]; exact hcons)]
        cases directive s (digs ++ [c]) [] with
        | error e => rfl
        | ok d =>
          simp only [Except.map]
          rw [ih hwf2 f d.static k (out ++ d.emitted) hlen]
          cases specRunInOrder d.static items arguments k with
          | error e => rfl
          | ok r =>
            simp only [Except.map, List.append_assoc]
            congr 3
            omega

theorem consumers_literal (c : Nat) (items : List Item) :
    consumers (Item.literal c :: items) = consumers items := rfl

theorem consumers_directive (digs : List Nat) (c : Nat) (items : List Item) :
    consumers (Item.directive digs c :: items) =
      (if consumesArgument c then 1 else 0) + consumers items := rfl

theorem specRunInOrder_literal (s : Static) (c : Nat) (items : List Item) (arguments : List Arg)
    (k : Nat) :
    specRunInOrder s (Item.literal c :: items) arguments k =
      (specRunInOrder s items arguments k).map fun r => (r.1, c :: r.2) := by
  rw [specRunInOrder]

theorem specRunInOrder_directive (s : Static) (digs : List Nat) (c : Nat) (items : List Item)
    (arguments : List Arg) (k : Nat) :
    specRunInOrder s (Item.directive digs c :: items) arguments k =
      if consumesArgument c then
        match arguments[k]? with
        | none => .error Fault.badArgument
        | some a =>
          match directive s (digs ++ [c]) [a] with
          | .error e => .error e
          | .ok d =>
            (specRunInOrder d.static items arguments (k + 1)).map fun r => (r.1, d.emitted ++ r.2)
      else
        match directive s (digs ++ [c]) [] with
        | .error e => .error e
        | .ok d =>
          (specRunInOrder d.static items arguments k).map fun r => (r.1, d.emitted ++ r.2) := by
  rw [specRunInOrder]

theorem consumers_append (xs ys : List Item) :
    consumers (xs ++ ys) = consumers xs + consumers ys := by
  induction xs with
  | nil => simp [consumers]
  | cons x xs ih =>
    cases x with
    | literal c => rw [List.cons_append, consumers_literal, consumers_literal, ih]
    | directive digs c =>
      rw [List.cons_append, consumers_directive, consumers_directive, ih]
      omega

theorem specRunInOrder_append (xs ys : List Item) (arguments : List Arg) (s : Static) (k : Nat) :
    specRunInOrder s (xs ++ ys) arguments k =
      match specRunInOrder s xs arguments k with
      | .error e => .error e
      | .ok r =>
        (specRunInOrder r.1 ys arguments (k + consumers xs)).map fun q => (q.1, r.2 ++ q.2) := by
  induction xs generalizing s k with
  | nil =>
    simp only [List.nil_append, specRunInOrder, consumers, Nat.add_zero]
    cases specRunInOrder s ys arguments k with
    | error e => rfl
    | ok q => rfl
  | cons x xs ih =>
    cases x with
    | literal c =>
      rw [List.cons_append, specRunInOrder_literal, specRunInOrder_literal, consumers_literal, ih]
      cases specRunInOrder s xs arguments k with
      | error e => rfl
      | ok r =>
        simp only [Except.map]
        cases specRunInOrder r.1 ys arguments (k + consumers xs) with
        | error e => rfl
        | ok q => rfl
    | directive digs c =>
      rw [List.cons_append, specRunInOrder_directive, specRunInOrder_directive,
        consumers_directive]
      by_cases hcons : consumesArgument c
      · simp only [if_pos hcons]
        cases arguments[k]? with
        | none => rfl
        | some a =>
          dsimp only
          cases directive s (digs ++ [c]) [a] with
          | error e => rfl
          | ok d =>
            dsimp only
            rw [ih, show k + 1 + consumers xs = k + (1 + consumers xs) by omega]
            cases specRunInOrder d.static xs arguments (k + 1) with
            | error e => rfl
            | ok r =>
              simp only [Except.map]
              cases specRunInOrder r.1 ys arguments (k + (1 + consumers xs)) with
              | error e => rfl
              | ok q => simp
      · simp only [if_neg hcons]
        cases directive s (digs ++ [c]) [] with
        | error e => rfl
        | ok d =>
          dsimp only
          rw [ih, Nat.zero_add]
          cases specRunInOrder d.static xs arguments k with
          | error e => rfl
          | ok r =>
            simp only [Except.map]
            cases specRunInOrder r.1 ys arguments (k + consumers xs) with
            | error e => rfl
            | ok q => simp

theorem embedded_printf_items (s : Static) (items : List Item) (junk : List Nat)
    (arguments : List Arg) (hwf : ∀ i ∈ items, i.WellFormed) :
    embedded_printf s (renderItems items ++ 0 :: junk) arguments =
      (specRunInOrder { s with embpf_InternalFlags := 0 } items arguments 0).map fun r =>
        { out := r.2, arguments := arguments.drop (consumers items), static := r.1,
          format := junk } := by
  have h := mainLoop_items items hwf junk arguments ((renderItems items ++ 0 :: junk).length + 1)
    { s with embpf_InternalFlags := 0 } 0 [] (Nat.le_refl _)
  simp only [List.drop_zero, Nat.zero_add, List.nil_append] at h
  exact h

theorem renderItems_cons (item : Item) (items : List Item) :
    renderItems (item :: items) = item.render ++ renderItems items := rfl

/-- Every run of bytes without a terminator is made of well-formed pieces, possibly followed
by the beginning of a directive: `%` and digits, the specifier missing. -/
theorem format_pieces (str : List Nat) (h0 : ∀ b ∈ str, b ≠ 0) :
    ∃ items : List Item, (∀ i ∈ items, i.WellFormed) ∧
      (str = renderItems items ∨
        ∃ digs, (∀ b ∈ digs, isWidthDigit b = true) ∧ str = renderItems items ++ 37 :: digs) := by
  obtain ⟨n, hn⟩ : ∃ n, str.length = n := ⟨_, rfl⟩
  induction n using Nat.strong_induction_on generalizing str with
  | _ n ih =>
    cases str with
    | nil => exact ⟨[], by simp, Or.inl rfl⟩
    | cons c rest =>
      by_cases h37 : c = 37
      · subst h37
        have hsplit := List.takeWhile_append_dropWhile isWidthDigit rest
        have hdg : ∀ b ∈ rest.takeWhile isWidthDigit, isWidthDigit b = true :=
          fun b hb => List.mem_takeWhile_imp hb
        cases htl : rest.dropWhile isWidthDigit with
        | nil =>
          rw [htl, List.append_nil] at hsplit
          rw [hsplit] at hdg
          exact ⟨[], by simp, Or.inr ⟨rest, hdg, rfl⟩⟩
        | cons d rest2 =>
          have hd : isWidthDigit d = false := by
            have := List.head_dropWhile_not isWidthDigit rest (by rw [htl]; simp)
            simpa [htl] using this
          rw [htl] at hsplit
          clear htl
          generalize rest.takeWhile isWidthDigit = digs at hsplit hdg
          subst hsplit
          have hlen : rest2.length < n := by
            rw [← hn]
            simp only [List.length_cons, List.length_append]
            omega
          have h0' : ∀ b ∈ rest2, b ≠ 0 := by
            intro b hb
            apply h0
            simp [hb]
          obtain ⟨items, hwf, hshape⟩ := ih rest2.length hlen rest2 h0' rfl
          refine ⟨Item.directive digs d :: items, ?_, ?_⟩
          · intro i hi
            rcases List.mem_cons.mp hi with rfl | hi
            · exact ⟨hdg, hd⟩
            · exact hwf i hi
          · rcases hshape with h | ⟨digs2, hdigs2, h⟩
            · left
              rw [renderItems_cons, ← h]
              simp [Item.render]
            · right
              refine ⟨digs2, hdigs2, ?_⟩
              rw [renderItems_cons, List.append_assoc, ← h]
              simp [Item.render]
      · have hlen : rest.length < n := by
          rw [← hn]
          simp
        have h0' : ∀ b ∈ rest, b ≠ 0 := fun b hb => h0 b (List.mem_cons_of_mem _ hb)
        obtain ⟨items, hwf, hshape⟩ := ih rest.length hlen rest h0' rfl
        refine ⟨Item.literal c :: items, ?_, ?_⟩
        · intro i hi
          rcases List.mem_cons.mp hi with rfl | hi
          · exact ⟨h0 c (List.mem_cons_self _ _), h37⟩
          · exact hwf i hi
        · rcases hshape with h | ⟨digs, hdigs, h⟩
          · left
            rw [renderItems_cons, ← h]
            rfl
          · right
            refine ⟨digs, hdigs, ?_⟩
            rw [renderItems_cons, List.append_assoc, ← h]
            rfl

/-- C16: for every format made of literal bytes and directives, followed by its terminator, a
call returns what running the pieces from left to right returns when the directive that has `k`
directives with one of the specifiers `c d i s u x X` before it is given the argument of index
`k` and no other, and fails when that fails: a directive with one of these specifiers takes
exactly one argument, `%%`, any other specifier and a literal byte take none, and the argument
cursor the call ends with is the argument list without as many arguments as the format has such
directives.  Spelled out for a single directive of the format: it is run in the state its
predecessors leave, on the argument whose index is the number of such directives before it, or
on no argument. -/
theorem arguments_consumed_in_order (s : Static) (items : List Item) (junk : List Nat)
    (arguments : List Arg) (hwf : ∀ i ∈ items, i.WellFormed) :
    embedded_printf s (renderItems items ++ 0 :: junk) arguments =
        ((specRunInOrder { s with embpf_InternalFlags := 0 } items arguments 0).map fun r =>
          { out := r.2, arguments := arguments.drop (consumers items), static := r.1,
            format := junk }) ∧
      ∀ before digs c after, items = before ++ Item.directive digs c :: after →
        embedded_printf s (renderItems items ++ 0 :: junk) arguments =
          match specRunInOrder { s with embpf_InternalFlags := 0 } before arguments 0 with
          | .error e => .error e
          | .ok r =>
            if consumesArgument c then
              match arguments[consumers before]? with
              | none => .error Fault.badArgument
              | some a =>
                match directive r.1 (digs ++ [c]) [a] with
                | .error e => .error e
                | .ok d =>
                  (specRunInOrder d.static after arguments (consumers before + 1)).map fun q =>
                    { out := r.2 ++ (d.emitted ++ q.2),
                      arguments := arguments.drop (consumers before + 1 + consumers after),
                      static := q.1, format := junk }
            else
              match directive r.1 (digs ++ [c]) [] with
              | .error e => .error e
              | .ok d =>
                (specRunInOrder d.static after arguments (consumers before)).map fun q =>
                  { out := r.2 ++ (d.emitted ++ q.2),
                    arguments := arguments.drop (consumers before + consumers after),
                    static := q.1, format := junk } := by
  refine ⟨embedded_printf_items s items junk arguments hwf, ?_⟩
  intro before digs c after hsplit
  rw [embedded_printf_items s items junk arguments hwf]
  subst hsplit
  rw [specRunInOrder_append, consumers_append, consumers_directive, Nat.zero_add]
  cases specRunInOrder { s with embpf_InternalFlags := 0 } before arguments 0 with
  | error e => rfl
  | ok r =>
    dsimp only
    rw [specRunInOrder_directive]
    by_cases hcons : consumesArgument c
    · simp only [if_pos hcons]
      cases arguments[consumers before]? with
      | none => rfl
      | some a =>
        dsimp only
        cases directive r.1 (digs ++ [c]) [a] with
        | error e => rfl
        | ok d =>
          dsimp only
          cases specRunInOrder d.static after arguments (consumers before + 1) with
          | error e => rfl
          | ok q =>
            simp only [Except.map]
            congr 3
            omega
    · simp only [if_neg hcons]
      cases directive r.1 (digs ++ [c]) [] with
      | error e => rfl
      | ok d =>
        dsimp only
        cases specRunInOrder d.static after arguments (consumers before) with
        | error e => rfl
        | ok q => simp [Except.map]

theorem arguments_consumed_in_order_witness :
    (∀ i ∈ [Item.literal 120, Item.directive [] 99, Item.directive [] 37,
        Item.directive [53] 113, Item.literal 45, Item.directive [] 115, Item.directive [] 99],
        i.WellFormed) ∧
      renderItems [Item.literal 120, Item.directive [] 99, Item.directive [] 37,
        Item.directive [53] 113, Item.literal 45, Item.directive [] 115, Item.directive [] 99] ++
          0 :: [] = cstring "x%c%%%5q-%s%c" ∧
      embedded_printf Static.initial (cstring "x%c%%%5q-%s%c")
          [Arg.word 65, Arg.str (cstring "hi"), Arg.word 66, Arg.word 67] =
        .ok { out := text "xA%     -hiB", arguments := [Arg.word 67],
              static := { Static.initial with
                outputBuffer := 66 :: List.replicate 11 0, outputBufferPtr := 1 },
              format := [] } ∧
      embedded_printf Static.initial
          (renderItems [Item.literal 120, Item.directive [] 99, Item.directive [] 37,
            Item.directive [53] 113, Item.literal 45, Item.directive [] 115,
            Item.directive [] 99] ++ 0 :: [])
          [Arg.word 65, Arg.str (cstring "hi"), Arg.word 66, Arg.word 67] =
        .ok { out := text "xA%     -hiB", arguments := [Arg.word 67],
              static := { Static.initial with
                outputBuffer := 66 :: List.replicate 11 0, outputBufferPtr := 1 },
              format := [] } ∧
      specRunInOrder { Static.initial with embpf_InternalFlags := 0 }
          [Item.literal 120, Item.directive [] 99, Item.directive [] 37,
            Item.directive [53] 113, Item.literal 45]
          [Arg.word 65, Arg.str (cstring "hi"), Arg.word 66, Arg.word 67] 0 =
        .ok (Static.initial, text "xA%     -") ∧
      consumers [Item.literal 120, Item.directive [] 99, Item.directive [] 37,
        Item.directive [53] 113, Item.literal 45] = 1 ∧
      embedded_printf Static.initial
          (renderItems [Item.literal 120, Item.directive [] 99, Item.directive [] 37,
            Item.directive [53] 113, Item.literal 45, Item.directive [] 115,
            Item.directive [] 99] ++ 0 :: [])
          [Arg.word 65, Arg.str (cstring "hi"), Arg.word 66, Arg.word 67] =
        match directive Static.initial ([] ++ [115]) [Arg.str (cstring "hi")] with
        | .error e => .error e
        | .ok d =>
          (specRunInOrder d.static [Item.directive [] 99]
            [Arg.word 65, Arg.str (cstring "hi"), Arg.word 66, Arg.word 67] 2).map fun q =>
              { out := text "xA%     -" ++ (d.emitted ++ q.2), arguments := [Arg.word 67],
                static := q.1, format := [] } :=
  ⟨by decide, by decide, by decide!,
    (arguments_consumed_in_order Static.initial
      [Item.literal 120, Item.directive [] 99, Item.directive [] 37, Item.directive [53] 113,
        Item.literal 45, Item.directive [] 115, Item.directive [] 99] []
      [Arg.word 65, Arg.str (cstring "hi"), Arg.word 66, Arg.word 67]
      (by decide)).1.trans (by decide!),
    by decide!, by decide,
    ((arguments_consumed_in_order Static.initial
      [Item.literal 120, Item.directive [] 99, Item.directive [] 37, Item.directive [53] 113,
        Item.literal 45, Item.directive [] 115, Item.directive [] 99] []
      [Arg.word 65, Arg.str (cstring "hi"), Arg.word 66, Arg.word 67]
      (by decide)).2
      [Item.literal 120, Item.directive [] 99, Item.directive [] 37, Item.directive [53] 113,
        Item.literal 45] [] 115 [Item.directive [] 99] rfl).trans (by decide!)⟩

/-! ## The staging buffer -/

theorem putDigitInOutputBuffer_ptr {s s1 : Static} {digit : Nat}
    (h : putDigitInOutputBuffer s digit = .ok s1) :
    s1.outputBufferPtr = s.outputBufferPtr + 1 ∧
      s1.outputBuffer.length = s.outputBuffer.length := by
  unfold putDigitInOutputBuffer ASSERT at h
  by_cases hd : 15 ≥ digit
  · simp only [hd, decide_True, if_true, bind, Except.bind, pure, Except.pure] at h
    cases h
    split
    · simp [putInOutputBuffer]
    · split <;> simp [putInOutputBuffer]
  · simp [hd, bind, Except.bind] at h

theorem divideAndPutInOutputBuffer_ptr {s s1 : Static} {dividend : Nat}
    (h : divideAndPutInOutputBuffer s dividend = .ok s1) :
    s1.outputBufferPtr ≤ s.outputBufferPtr + 1 ∧
      s1.outputBuffer.length = s.outputBuffer.length := by
  unfold divideAndPutInOutputBuffer at h
  cases hloop : divideLoop dividend (s.u32integerNumber / dividend + 1) s.u32integerNumber 0 with
  | error e => rw [hloop] at h; cases h
  | ok r =>
    rw [hloop] at h
    simp only [bind, Except.bind, pure, Except.pure] at h
    split at h
    · have := putDigitInOutputBuffer_ptr h
      exact ⟨by simpa using this.1.le, this.2⟩
    · cases h
      exact ⟨Nat.le_succ _, rfl⟩

theorem bind_ok {α β : Type} {x : Except Fault α} {f : α → Except Fault β} {b : β}
    (h : x >>= f = .ok b) : ∃ a, x = .ok a ∧ f a = .ok b := by
  cases x with
  | error e => cases h
  | ok a => exact ⟨a, rfl, h⟩

theorem stageDecimal_ptr {s s1 : Static} (h : stageDecimal s = .ok s1) :
    s1.outputBufferPtr ≤ s.outputBufferPtr + 10 ∧
      s1.outputBuffer.length = s.outputBuffer.length := by
  unfold stageDecimal at h
  obtain ⟨a1, h1, h⟩ := bind_ok h
  obtain ⟨a2, h2, h⟩ := bind_ok h
  obtain ⟨a3, h3, h⟩ := bind_ok h
  obtain ⟨a4, h4, h⟩ := bind_ok h
  obtain ⟨a5, h5, h⟩ := bind_ok h
  obtain ⟨a6, h6, h⟩ := bind_ok h
  obtain ⟨a7, h7, h⟩ := bind_ok h
  obtain ⟨a8, h8, h⟩ := bind_ok h
  obtain ⟨a9, h9, h⟩ := bind_ok h
  have p1 := divideAndPutInOutputBuffer_ptr h1
  have p2 := divideAndPutInOutputBuffer_ptr h2
  have p3 := divideAndPutInOutputBuffer_ptr h3
  have p4 := divideAndPutInOutputBuffer_ptr h4
  have p5 := divideAndPutInOutputBuffer_ptr h5
  have p6 := divideAndPutInOutputBuffer_ptr h6
  have p7 := divideAndPutInOutputBuffer_ptr h7
  have p8 := divideAndPutInOutputBuffer_ptr h8
  have p9 := divideAndPutInOutputBuffer_ptr h9
  have p10 := putDigitInOutputBuffer_ptr h
  exact ⟨by omega, by omega⟩

theorem stageHex_ptr {s s1 : Static} (h : stageHex s = .ok s1) :
    s1.outputBufferPtr ≤ s.outputBufferPtr + 8 ∧
      s1.outputBuffer.length = s.outputBuffer.length := by
  unfold stageHex at h
  obtain ⟨a1, h1, h⟩ := bind_ok h
  obtain ⟨a2, h2, h⟩ := bind_ok h
  obtain ⟨a3, h3, h⟩ := bind_ok h
  obtain ⟨a4, h4, h⟩ := bind_ok h
  obtain ⟨a5, h5, h⟩ := bind_ok h
  obtain ⟨a6, h6, h⟩ := bind_ok h
  obtain ⟨a7, h7, h⟩ := bind_ok h
  have p1 := divideAndPutInOutputBuffer_ptr h1
  have p2 := divideAndPutInOutputBuffer_ptr h2
  have p3 := divideAndPutInOutputBuffer_ptr h3
  have p4 := divideAndPutInOutputBuffer_ptr h4
  have p5 := divideAndPutInOutputBuffer_ptr h5
  have p6 := divideAndPutInOutputBuffer_ptr h6
  have p7 := divideAndPutInOutputBuffer_ptr h7
  have p8 := putDigitInOutputBuffer_ptr h
  exact ⟨by omega, by omega⟩

theorem stageSpecifier_ptr {s s2 : Static} {c : Nat} {arguments rest : List Arg} {src : Source}
    (h : stageSpecifier s c arguments = .ok (s2, src, rest)) :
    s2.outputBufferPtr ≤ 11 ∧ s2.outputBuffer.length = s.outputBuffer.length := by
  unfold stageSpecifier at h
  split at h
  · obtain ⟨a, ha, h⟩ := bind_ok h
    obtain ⟨v, tl⟩ := a
    obtain ⟨s3, h3, h⟩ := bind_ok h
    cases h
    have p := stageDecimal_ptr h3
    revert p
    split
    · simp only [putInOutputBuffer, List.length_set]
      intro p
      exact ⟨by omega, p.2⟩
    · simp only
      intro p
      exact ⟨by omega, p.2⟩
  · split at h
    · obtain ⟨a, ha, h⟩ := bind_ok h
      obtain ⟨v, tl⟩ := a
      obtain ⟨s3, h3, h⟩ := bind_ok h
      cases h
      have p := stageHex_ptr h3
      revert p
      split
      · simp only
        intro p
        exact ⟨by omega, p.2⟩
      · simp only
        intro p
        exact ⟨by omega, p.2⟩
    · split at h
      · obtain ⟨a, ha, h⟩ := bind_ok h
        cases h
        simp [putInOutputBuffer]
      · split at h
        · obtain ⟨a, ha, h⟩ := bind_ok h
          cases h
          simp
        · split at h
          · cases h
            simp [putInOutputBuffer]
          · cases h
            simp

/-- C18: whatever the static state (flags included), the format and the arguments, a directive
that completes has staged at most eleven bytes: the write position at which the terminator is
stored is at most `11`, the buffer keeps its twelve bytes, and the terminator is in it. -/
theorem staging_buffer_not_overrun (s : Static) (format : List Nat) (arguments : List Arg)
    (d : Directive) (hs : s.outputBuffer.length = 12)
    (h : directive s format arguments = .ok d) :
    d.static.outputBufferPtr ≤ 11 ∧ d.static.outputBuffer.length = 12 ∧
      d.static.outputBuffer[d.static.outputBufferPtr]? = some 0 := by
  rw [directive_eq] at h
  cases hst : stageSpecifier (parseFlagsWidth s format).1 (parseFlagsWidth s format).2.2.1
      arguments with
  | error e => rw [hst] at h; cases h
  | ok r =>
    obtain ⟨s2, src, rest⟩ := r
    rw [hst] at h
    cases h
    obtain ⟨hp, hl⟩ := stageSpecifier_ptr hst
    have hl1 : (parseFlagsWidth s format).1.outputBuffer.length = 12 := by
      by_cases h48 : 48 = readByte format
      · simp only [parseFlagsWidth, h48, if_true]
        exact hs
      · simp only [parseFlagsWidth, h48, if_false]
        exact hs
    rw [hl1] at hl
    refine ⟨hp, by simpa using hl, ?_⟩
    simp only
    rw [List.getElem?_set_self (by omega)]

theorem staging_buffer_not_overrun_witness :
    (Static.initial.outputBuffer.length = 12 ∧
      directive { Static.initial with embpf_InternalFlags := 7 } (advance (cstring "%d"))
          [Arg.word 2147483648] =
        .ok { static := { outputBuffer := text "-2147483648" ++ [0], outputBufferPtr := 11,
                          embpf_InternalFlags := 3, u32integerNumber := 8 },
              format := [0], arguments := [], emitted := text "-2147483648" }) ∧
      ((11 : Nat) ≤ 11 ∧ (text "-2147483648" ++ [0]).length = 12 ∧
        (text "-2147483648" ++ [0])[11]? = some 0) :=
  ⟨⟨by decide, by decide!⟩,
    staging_buffer_not_overrun { Static.initial with embpf_InternalFlags := 7 }
      (advance (cstring "%d")) [Arg.word 2147483648]
      { static := { outputBuffer := text "-2147483648" ++ [0], outputBufferPtr := 11,
                    embpf_InternalFlags := 3, u32integerNumber := 8 },
        format := [0], arguments := [], emitted := text "-2147483648" }
      (by decide) (by decide!)⟩

/-! ## Flags between directives, assertions and the terminator -/

/-- C21: with only the digit-emitted flag set (capitals clear), `putDigitInOutputBuffer` stages
`'A'` for the digit `10`, and with only the zero-padding flag set it stages `'F'` for `15`; so
`"%x"` with `26` emits `"1A"` and `"%0x"` with `10` emits `"0000000A"`.  With no flag set the
digit `10` is staged as `'a'`, and the digits `0..9` are staged as `'0'..'9'`. -/
theorem letter_case_follows_any_flag :
    (putDigitInOutputBuffer
        { Static.initial with embpf_InternalFlags := FLAG_IS_NOT_FIRST_DIGIT } 10).map
          (fun s => s.outputBuffer.take s.outputBufferPtr) = .ok (text "A") ∧
      (putDigitInOutputBuffer
        { Static.initial with embpf_InternalFlags := FLAG_USE_ZERO_PADDING } 15).map
          (fun s => s.outputBuffer.take s.outputBufferPtr) = .ok (text "F") ∧
      emitted Static.initial (cstring "%x") [Arg.word 26] = .ok (text "1A") ∧
      emitted Static.initial (cstring "%0x") [Arg.word 10] = .ok (text "0000000A") ∧
      (putDigitInOutputBuffer Static.initial 10).map
          (fun s => s.outputBuffer.take s.outputBufferPtr) = .ok (text "a") ∧
      (∀ g < 10, ∀ flags < 8,
        (putDigitInOutputBuffer { Static.initial with embpf_InternalFlags := flags } g).map
          (fun s => s.outputBuffer.take s.outputBufferPtr) = .ok [48 + g]) := by
  decide!

/-- C22: the static state with which the directive after `"%0c"` starts has the zero-padding
flag set (flags `2`), after `"%X"` the capitals and digit-emitted flags (flags `5`), after `"%x"`
the digit-emitted flag (flags `4`).  So `"%3c"` with `'B'` emits `"  B"` alone and `"00B"` after a
`"%0c"`, and `"%x"` with `1` emits `"1"` alone and `"00000001"` after another `"%x"`. -/
theorem flags_survive_directive :
    (directive Static.initial (advance (cstring "%0c%3c")) [Arg.word 65, Arg.word 66]).map
        (fun d => (d.static.embpf_InternalFlags, d.format)) = .ok (2, cstring "%3c") ∧
      (directive Static.initial (advance (cstring "%X%x")) [Arg.word 1, Arg.word 1]).map
        (fun d => (d.static.embpf_InternalFlags, d.format)) = .ok (5, cstring "%x") ∧
      (directive Static.initial (advance (cstring "%x%x")) [Arg.word 1, Arg.word 1]).map
        (fun d => (d.static.embpf_InternalFlags, d.format)) = .ok (4, cstring "%x") ∧
      emitted Static.initial (cstring "%3c") [Arg.word 66] = .ok (text "  B") ∧
      emitted Static.initial (cstring "%0c%3c") [Arg.word 65, Arg.word 66] = .ok (text "A00B") ∧
      emitted Static.initial (cstring "%x") [Arg.word 1] = .ok (text "1") ∧
      emitted Static.initial (cstring "%x%x") [Arg.word 1, Arg.word 1]
        = .ok (text "100000001") := by
  decide!

/-- C24: `"%x"` with `16` passes the digit `16` to `putDigitInOutputBuffer`: the place `0x10`
counts no subtraction and leaves the number at `16`, which is the last digit, and the assertion
`15 >= outputDigit` fails.  `"%u"` with `10` passes the digit `10` on the decimal path. -/
theorem last_digit_exceeds_radix :
    (divideAndPutInOutputBuffer { Static.initial with u32integerNumber := 16 } 0x10).map
        (fun s => s.u32integerNumber) = .ok 16 ∧
      putDigitInOutputBuffer { Static.initial with u32integerNumber := 16 } 16
        = .error Fault.assertFailed ∧
      stageHex { Static.initial with u32integerNumber := 16 } = .error Fault.assertFailed ∧
      embedded_printf Static.initial (cstring "%x") [Arg.word 16] = .error Fault.assertFailed ∧
      (divideAndPutInOutputBuffer { Static.initial with u32integerNumber := 10 } 10).map
        (fun s => s.u32integerNumber) = .ok 10 ∧
      emitted Static.initial (cstring "%u") [Arg.word 10] = .ok (text "a") := by
  decide!

/-- C25: with the format `"%"` stored in memory as `'%'`, the terminator, `'A'` and a zero, the
call reads all four bytes and emits the `'A'` stored after the terminator; with `"abc%05"`
followed by `'A'` and a zero it emits `"abc00000A"`. -/
theorem scanner_reads_past_terminator :
    (embedded_printf Static.initial (cstring "%" ++ [65, 0]) []).map
        (fun r => (r.out, r.format)) = .ok (text "A", []) ∧
      (embedded_printf Static.initial (cstring "abc%05" ++ [65, 0]) []).map
        (fun r => (r.out, r.format)) = .ok (text "abc00000A", []) ∧
      (embedded_printf Static.initial (cstring "abc" ++ [65, 0]) []).map
        (fun r => (r.out, r.format)) = .ok (text "abc", [65, 0]) := by
  decide!

/-! ## The width -/

theorem timesTen_eq (w : Nat) : (((w <<< 2) + w) <<< 1) % 256 = (10 * w) % 256 := by
  simp only [Nat.shiftLeft_eq]
  omega

theorem widthLoop_value (digs : List Nat) (hd : ∀ b ∈ digs, isWidthDigit b = true) (w v : Nat)
    (hwv : w = v % 256) (c : Nat) (rest : List Nat) (hc : isWidthDigit c = false) :
    widthLoop (advance (digs ++ c :: rest)) (readByte (digs ++ c :: rest)) w =
      (rest, c, (digs.foldl (fun v b => 10 * v + (b - 48)) v) % 256) := by
  induction digs generalizing w v with
  | nil =>
    simp only [List.nil_append, readByte, advance, List.headD_cons, List.tail_cons,
      List.foldl_nil, ← hwv]
    cases rest <;> simp [widthLoop, hc]
  | cons b digs ih =>
    have hb : isWidthDigit b = true := hd b (List.mem_cons_self _ _)
    have hstep : ((((w <<< 2) + w) <<< 1) % 256 + (b - 48)) % 256 =
        (10 * v + (b - 48)) % 256 := by
      rw [timesTen_eq, hwv]
      omega
    have := ih (fun x hx => hd x (List.mem_cons_of_mem _ hx)) _ _ hstep
    simp only [List.cons_append, readByte, advance, List.headD_cons, List.tail_cons,
      List.foldl_cons]
    cases hl : digs ++ c :: rest with
    | nil => simp at hl
    | cons x l =>
      rw [hl] at this
      simp only [readByte, advance, List.headD_cons, List.tail_cons] at this
      rw [widthLoop]
      simp only [hb, if_true]
      exact this

/-- C23: the shift-and-add expression stored into the 8-bit width is `10 * w` modulo `256`, and
the width parsed from a directive is the decimal value of its run of digits (the digits after
the optional `0` flag) modulo `256`: that value itself when it is at most `255`. -/
theorem width_is_decimal_value_mod_256 (s : Static) (digs rest : List Nat) (c : Nat)
    (hd : ∀ b ∈ digs, isWidthDigit b = true) (hc : isWidthDigit c = false) :
    (∀ w < 256, (((w <<< 2) + w) <<< 1) % 256 = (10 * w) % 256) ∧
      (parseFlagsWidth s (digs ++ c :: rest)).2.2.2 = decimalValue (widthRun digs) % 256 ∧
      (decimalValue (widthRun digs) ≤ 255 →
        (parseFlagsWidth s (digs ++ c :: rest)).2.2.2 = decimalValue (widthRun digs)) := by
  have main : (parseFlagsWidth s (digs ++ c :: rest)).2.2.2 =
      decimalValue (widthRun digs) % 256 := by
    cases digs with
    | nil =>
      have h48 : ¬ 48 = c := by
        intro h
        subst h
        simp [isWidthDigit] at hc
      simp only [parseFlagsWidth, List.nil_append, readByte, advance, List.headD_cons,
        List.tail_cons, h48, if_false]
      cases rest <;> simp [widthLoop, hc, decimalValue, widthRun]
    | cons b digs =>
      by_cases h48 : 48 = b
      · subst h48
        simp only [parseFlagsWidth, List.cons_append, readByte, advance, List.headD_cons,
          List.tail_cons, if_true]
        have := widthLoop_value digs (fun x hx => hd x (List.mem_cons_of_mem _ hx)) 0 0 rfl
          c rest hc
        simp only [readByte, advance] at this
        rw [this]
        rfl
      · simp only [parseFlagsWidth, List.cons_append, readByte, advance, List.headD_cons,
          List.tail_cons, h48, if_false]
        have := widthLoop_value (b :: digs) hd 0 0 rfl c rest hc
        simp only [List.cons_append, readByte, advance, List.headD_cons, List.tail_cons] at this
        rw [this]
        have hrun : widthRun (b :: digs) = b :: digs := by
          unfold widthRun
          split
          · rename_i heq
            simp only [List.cons.injEq] at heq
            exact absurd heq.1.symm h48
          · rfl
        rw [hrun]
        rfl
  refine ⟨fun w _ => timesTen_eq w, main, fun hle => ?_⟩
  rw [main]
  exact Nat.mod_eq_of_lt (by omega)

theorem width_is_decimal_value_mod_256_witness :
    ((∀ b ∈ text "0300", isWidthDigit b = true) ∧ isWidthDigit 100 = false) ∧
      ((∀ w < 256, (((w <<< 2) + w) <<< 1) % 256 = (10 * w) % 256) ∧
        (parseFlagsWidth Static.initial (text "0300" ++ 100 :: [0])).2.2.2 =
          decimalValue (widthRun (text "0300")) % 256 ∧
        (decimalValue (widthRun (text "0300")) ≤ 255 →
          (parseFlagsWidth Static.initial (text "0300" ++ 100 :: [0])).2.2.2 =
            decimalValue (widthRun (text "0300")))) ∧
      decimalValue (widthRun (text "0300")) = 300 ∧
      (parseFlagsWidth Static.initial (text "0300" ++ 100 :: [0])).2.2.2 = 44 ∧
      (parseFlagsWidth Static.initial (text "255" ++ 100 :: [0])).2.2.2 = 255 :=
  ⟨⟨by decide, by decide⟩,
    width_is_decimal_value_mod_256 Static.initial (text "0300") [0] 100 (by decide) (by decide),
    by decide, by decide, by decide⟩

/-! ## The subtraction loop in closed form -/

theorem divideLoop_eq (p : Nat) (hp : 0 < p) (fuel n acc : Nat) (hfuel : n / p + 1 ≤ fuel)
    (hacc : acc < 256) :
    divideLoop p fuel n acc =
      .ok (if n = 0 then 0 else (n - 1) % p + 1, (acc + (n - 1) / p) % 256) := by
  induction fuel generalizing n acc with
  | zero => exact absurd hfuel (Nat.not_succ_le_zero _)
  | succ f ih =>
    rw [divideLoop]
    by_cases hgt : n > p
    · rw [if_pos hgt]
      have hdiv : n / p = (n - p) / p + 1 := Nat.div_eq_sub_div hp (Nat.le_of_lt hgt)
      rw [ih (n - p) ((acc + 1) % 256) (by rw [hdiv] at hfuel; exact Nat.le_of_succ_le_succ hfuel)
        (Nat.mod_lt _ (by decide))]
      have h1 : n - 1 = (n - p - 1) + p := by omega
      have hm : (n - 1) % p = (n - p - 1) % p := by rw [h1, Nat.add_mod_right]
      have hq : (n - 1) / p = (n - p - 1) / p + 1 := by rw [h1, Nat.add_div_right _ hp]
      have hn0 : n ≠ 0 := by omega
      have hnp : n - p ≠ 0 := by omega
      rw [if_neg hn0, if_neg hnp, hm, hq]
      congr 2
      omega
    · rw [if_neg hgt]
      by_cases hn0 : n = 0
      · subst hn0
        simp [Nat.mod_eq_of_lt hacc]
      · rw [if_neg hn0]
        have hlt : n - 1 < p := by omega
        have hn : n - 1 + 1 = n := by omega
        rw [Nat.mod_eq_of_lt hlt, Nat.div_eq_of_lt hlt, hn, Nat.add_zero,
          Nat.mod_eq_of_lt hacc]

theorem divideAndPutInOutputBuffer_eq (s : Static) (p : Nat) (hp : 0 < p) :
    divideAndPutInOutputBuffer s p =
      if ((s.u32integerNumber - 1) / p % 256 > 0 ||
          logicalAnd s.embpf_InternalFlags FLAG_IS_NOT_FIRST_DIGIT) = true then
        putDigitInOutputBuffer
          { s with u32integerNumber :=
              if s.u32integerNumber = 0 then 0 else (s.u32integerNumber - 1) % p + 1 }
          ((s.u32integerNumber - 1) / p % 256)
      else
        .ok { s with u32integerNumber :=
              if s.u32integerNumber = 0 then 0 else (s.u32integerNumber - 1) % p + 1 } := by
  unfold divideAndPutInOutputBuffer
  rw [divideLoop_eq p hp _ _ 0 (Nat.le_refl _) (by decide)]
  simp only [Nat.zero_add, bind, Except.bind, pure, Except.pure]

/-! ## The decimal representation -/

theorem toDigitsCore_eq (n : Nat) : ∀ fuel, n < fuel → ∀ ds,
    Nat.toDigitsCore 10 fuel n ds = Nat.toDigits 10 n ++ ds := by
  induction n using Nat.strong_induction_on with
  | _ n ih =>
    intro fuel hfuel ds
    obtain ⟨f, rfl⟩ : ∃ f, fuel = f + 1 := ⟨fuel - 1, by omega⟩
    by_cases h0 : n / 10 = 0
    · simp [Nat.toDigits, Nat.toDigitsCore, h0]
    · have hlt : n / 10 < n := Nat.div_lt_self (by omega) (by decide)
      have e1 : Nat.toDigitsCore 10 (f + 1) n ds =
          Nat.toDigitsCore 10 f (n / 10) (Nat.digitChar (n % 10) :: ds) := by
        simp [Nat.toDigitsCore, h0]
      have e2 : Nat.toDigits 10 n =
          Nat.toDigitsCore 10 n (n / 10) [Nat.digitChar (n % 10)] := by
        simp [Nat.toDigits, Nat.toDigitsCore, h0]
      rw [e1, e2, ih (n / 10) hlt f (by omega), ih (n / 10) hlt n hlt]
      simp

theorem decimalDigits_lt_ten (n : Nat) (h : n < 10) : decimalDigits n = [48 + n] := by
  interval_cases n <;> rfl

theorem decimalDigits_step (n : Nat) (h : 10 ≤ n) :
    decimalDigits n = decimalDigits (n / 10) ++ [48 + n % 10] := by
  have h0 : n / 10 ≠ 0 := by omega
  have hlt : n / 10 < n := Nat.div_lt_self (by omega) (by decide)
  have e2 : Nat.toDigits 10 n =
      Nat.toDigitsCore 10 n (n / 10) [Nat.digitChar (n % 10)] := by
    simp [Nat.toDigits, Nat.toDigitsCore, h0]
  have hd : (Nat.digitChar (n % 10)).toNat = 48 + n % 10 := by
    have : n % 10 < 10 := Nat.mod_lt _ (by decide)
    generalize n % 10 = k at this
    interval_cases k <;> rfl
  unfold decimalDigits
  rw [e2, toDigitsCore_eq (n / 10) n hlt]
  simp [hd]

theorem decimalDigits_bytes (n : Nat) : ∀ b ∈ decimalDigits n, 48 ≤ b ∧ b ≤ 57 := by
  induction n using Nat.strong_induction_on with
  | _ n ih =>
    by_cases h : n < 10
    · rw [decimalDigits_lt_ten n h]
      intro b hb
      simp at hb
      omega
    · rw [decimalDigits_step n (by omega)]
      intro b hb
      rcases List.mem_append.mp hb with hb | hb
      · exact ih (n / 10) (Nat.div_lt_self (by omega) (by decide)) b hb
      · simp at hb
        omega

/-! ## The decimal path, place by place -/

theorem pred_div_mod (r p : Nat) (hp : 0 < p) (hmod : r % p ≠ 0) :
    (r - 1) / p = r / p ∧ (r - 1) % p + 1 = r % p := by
  have h := Nat.div_add_mod r p
  have hlt : r % p < p := Nat.mod_lt _ hp
  have e : r - 1 = (r % p - 1) + p * (r / p) := by omega
  have hsmall : r % p - 1 < p := by omega
  rw [e, Nat.add_mul_div_left _ _ hp, Nat.add_mul_mod_self_left, Nat.div_eq_of_lt hsmall,
    Nat.mod_eq_of_lt hsmall]
  omega

theorem staged_put (s : Static) (c : Nat) (hroom : s.outputBufferPtr < s.outputBuffer.length) :
    (putInOutputBuffer s c).staged = s.staged ++ [c] := by
  simp only [Static.staged, putInOutputBuffer, take_succ_set, if_pos hroom]

theorem stage_place (s : Static) (p m : Nat) (hp : 0 < p) (hmod : s.u32integerNumber % p ≠ 0)
    (hk : s.u32integerNumber / p < 10) (hinv : s.StagedDecimal m)
    (hroom : s.outputBufferPtr < s.outputBuffer.length) :
    ∃ s1, divideAndPutInOutputBuffer s p = .ok s1 ∧
      s1.u32integerNumber = s.u32integerNumber % p ∧
      s1.StagedDecimal (10 * m + s.u32integerNumber / p) ∧
      s1.outputBufferPtr ≤ s.outputBufferPtr + 1 ∧
      s1.outputBuffer.length = s.outputBuffer.length := by
  obtain ⟨hq, hr⟩ := pred_div_mod _ p hp hmod
  have hn0 : s.u32integerNumber ≠ 0 := by
    intro h
    rw [h] at hmod
    simp at hmod
  obtain ⟨hst, hfl⟩ := hinv
  rw [divideAndPutInOutputBuffer_eq s p hp, hq, if_neg hn0, hr,
    Nat.mod_eq_of_lt (show s.u32integerNumber / p < 256 by omega)]
  generalize s.u32integerNumber / p = k at hk ⊢
  obtain ⟨buf, ptr, fl, num⟩ := s
  simp only at hfl hroom hmod ⊢
  by_cases hm : m = 0
  · subst hm
    simp only [if_true] at hst hfl
    subst hfl
    by_cases hk0 : k = 0
    · subst hk0
      refine ⟨⟨buf, ptr, 0, num % p⟩, by simp [logicalAnd], rfl, ⟨by simpa using hst, rfl⟩,
        Nat.le_succ _, rfl⟩
    · refine ⟨{ putInOutputBuffer ⟨buf, ptr, 0, num % p⟩ (k + 48) with
          embpf_InternalFlags := 4 }, ?_, rfl, ⟨?_, ?_⟩, Nat.le_refl _, by
            simp [putInOutputBuffer]⟩
      · have hkpos : k > 0 := Nat.pos_of_ne_zero hk0
        have h15 : 15 ≥ k := by omega
        have h10 : 10 > k := hk
        simp [putDigitInOutputBuffer, ASSERT, hkpos, h15, h10, bind, Except.bind, pure,
          Except.pure, putInOutputBuffer, FLAG_IS_NOT_FIRST_DIGIT,
          Nat.mod_eq_of_lt (show k + 48 < 256 by omega)]
      · have := staged_put ⟨buf, ptr, 0, num % p⟩ (k + 48) hroom
        simp only [Static.staged] at this hst ⊢
        rw [this, hst, Nat.mul_zero, Nat.zero_add, if_neg hk0, decimalDigits_lt_ten k hk,
          Nat.add_comm]
        rfl
      · simp [hk0]
  · simp only [if_neg hm] at hst hfl
    subst hfl
    have hm' : 10 * m + k ≠ 0 := by omega
    refine ⟨{ putInOutputBuffer ⟨buf, ptr, 4, num % p⟩ (k + 48) with
        embpf_InternalFlags := 4 }, ?_, rfl, ⟨?_, ?_⟩, Nat.le_refl _, by
          simp [putInOutputBuffer]⟩
    · have h15 : 15 ≥ k := by omega
      have h10 : 10 > k := hk
      simp [putDigitInOutputBuffer, ASSERT, h15, h10, bind, Except.bind, pure,
        Except.pure, putInOutputBuffer, FLAG_IS_NOT_FIRST_DIGIT, logicalAnd,
        Nat.mod_eq_of_lt (show k + 48 < 256 by omega)]
    · have := staged_put ⟨buf, ptr, 4, num % p⟩ (k + 48) hroom
      simp only [Static.staged] at this hst ⊢
      rw [this, hst, if_neg hm', decimalDigits_step (10 * m + k) (by omega)]
      have e1 : (10 * m + k) / 10 = m := by omega
      have e2 : (10 * m + k) % 10 = k := by omega
      rw [e1, e2, Nat.add_comm]
    · simp [hm']

theorem stage_last (s : Static) (m : Nat) (hr : s.u32integerNumber < 10)
    (hinv : s.StagedDecimal m) (hroom : s.outputBufferPtr < s.outputBuffer.length) :
    ∃ s1, putDigitInOutputBuffer s (s.u32integerNumber % 256) = .ok s1 ∧
      s1.staged = decimalDigits (10 * m + s.u32integerNumber) ∧
      s1.outputBufferPtr = s.outputBufferPtr + 1 ∧
      s1.outputBuffer.length = s.outputBuffer.length := by
  obtain ⟨hst, hfl⟩ := hinv
  rw [Nat.mod_eq_of_lt (show s.u32integerNumber < 256 by omega)]
  generalize s.u32integerNumber = k at hr ⊢
  have h15 : 15 ≥ k := by omega
  have h10 : 10 > k := hr
  refine ⟨{ putInOutputBuffer s (k + 48) with
      embpf_InternalFlags := s.embpf_InternalFlags ||| FLAG_IS_NOT_FIRST_DIGIT }, ?_, ?_,
    by simp [putInOutputBuffer], by simp [putInOutputBuffer]⟩
  · simp [putDigitInOutputBuffer, ASSERT, h15, h10, bind, Except.bind, pure, Except.pure,
      Nat.mod_eq_of_lt (show k + 48 < 256 by omega)]
    rfl
  · have := staged_put s (k + 48) hroom
    simp only [Static.staged] at this hst ⊢
    simp only [putInOutputBuffer] at this ⊢
    rw [this, hst]
    by_cases hm : m = 0
    · subst hm
      rw [if_pos rfl, Nat.mul_zero, Nat.zero_add, decimalDigits_lt_ten k hr, Nat.add_comm]
      rfl
    · rw [if_neg hm, decimalDigits_step (10 * m + k) (by omega)]
      have e1 : (10 * m + k) / 10 = m := by omega
      have e2 : (10 * m + k) % 10 = k := by omega
      rw [e1, e2, Nat.add_comm]

theorem stage_place_of (s : Static) (n p q : Nat) (hp : 0 < p)
    (hnum : s.u32integerNumber = n % q) (hinv : s.StagedDecimal (n / q))
    (hmod : (n % q) % p ≠ 0) (hk : (n % q) / p < 10)
    (hm : 10 * (n / q) + (n % q) / p = n / p) (hr : (n % q) % p = n % p)
    (hroom : s.outputBufferPtr < s.outputBuffer.length) :
    ∃ s1, divideAndPutInOutputBuffer s p = .ok s1 ∧
      s1.u32integerNumber = n % p ∧ s1.StagedDecimal (n / p) ∧
      s1.outputBufferPtr ≤ s.outputBufferPtr + 1 ∧
      s1.outputBuffer.length = s.outputBuffer.length := by
  obtain ⟨s1, e1, n1, i1, p1, l1⟩ := stage_place s p (n / q) hp (by rw [hnum]; exact hmod)
    (by rw [hnum]; exact hk) hinv hroom
  rw [hnum] at n1 i1
  rw [hm] at i1
  rw [hr] at n1
  exact ⟨s1, e1, n1, i1, p1, l1⟩

theorem place_facts (n p : Nat) (hp : 0 < p) (hp10 : 10 ∣ p) (h10 : n % 10 ≠ 0) :
    (n % (10 * p)) % p ≠ 0 ∧ (n % (10 * p)) / p < 10 ∧
      10 * (n / (10 * p)) + (n % (10 * p)) / p = n / p ∧ (n % (10 * p)) % p = n % p := by
  have hr : (n % (10 * p)) % p = n % p := Nat.mod_mod_of_dvd n (Dvd.intro_left 10 rfl)
  have hne : n % p ≠ 0 := by
    intro h
    have := Nat.mod_mod_of_dvd n hp10
    rw [h] at this
    exact h10 this.symm
  refine ⟨by rw [hr]; exact hne, ?_, ?_, hr⟩
  · apply Nat.div_lt_of_lt_mul
    rw [Nat.mul_comm]
    exact Nat.mod_lt _ (by omega)
  · have h := Nat.div_add_mod n (10 * p)
    have e : n = n % (10 * p) + p * (10 * (n / (10 * p))) := by
      rw [← Nat.mul_assoc, Nat.mul_comm p 10]
      omega
    conv_rhs => rw [e]
    rw [Nat.add_mul_div_left _ _ hp]
    omega

theorem stageDecimal_of_not_multiple (s : Static) (n : Nat) (hn : n < 4294967296)
    (h10 : n % 10 ≠ 0) (hnum : s.u32integerNumber = n) (hptr : s.outputBufferPtr = 0)
    (hfl : s.embpf_InternalFlags = 0) (hlen : s.outputBuffer.length = 12) :
    ∃ sf, stageDecimal s = .ok sf ∧ sf.staged = decimalDigits n ∧
      sf.outputBufferPtr < 12 ∧ sf.outputBuffer.length = 12 := by
  have hq : n / (10 * 1000000000) = 0 := by omega
  have hinv0 : s.StagedDecimal (n / (10 * 1000000000)) := by
    rw [hq]
    exact ⟨by simp [Static.staged, hptr], by simp [hfl]⟩
  have hnum0 : s.u32integerNumber = n % (10 * 1000000000) := by omega
  clear hq hn
  obtain ⟨f1, f2, f3, f4⟩ := place_facts n 1000000000 (by decide) (by decide) h10
  obtain ⟨s1, e1, n1, i1, p1, l1⟩ := stage_place_of s n 1000000000 (10 * 1000000000)
    (by decide) hnum0 hinv0 f1 f2 f3 f4 (by rw [hlen, hptr]; decide)
  clear f1 f2 f3 f4 hnum0 hinv0
  have r1 : s1.outputBufferPtr < s1.outputBuffer.length := by rw [l1, hlen]; omega
  obtain ⟨f1, f2, f3, f4⟩ := place_facts n 100000000 (by decide) (by decide) h10
  obtain ⟨s2, e2, n2, i2, p2, l2⟩ := stage_place_of s1 n 100000000 (10 * 100000000)
    (by decide) n1 i1 f1 f2 f3 f4 r1
  clear f1 f2 f3 f4 n1 i1
  have r2 : s2.outputBufferPtr < s2.outputBuffer.length := by rw [l2, l1, hlen]; omega
  obtain ⟨f1, f2, f3, f4⟩ := place_facts n 10000000 (by decide) (by decide) h10
  obtain ⟨s3, e3, n3, i3, p3, l3⟩ := stage_place_of s2 n 10000000 (10 * 10000000)
    (by decide) n2 i2 f1 f2 f3 f4 r2
  clear f1 f2 f3 f4 n2 i2
  have r3 : s3.outputBufferPtr < s3.outputBuffer.length := by rw [l3, l2, l1, hlen]; omega
  obtain ⟨f1, f2, f3, f4⟩ := place_facts n 1000000 (by decide) (by decide) h10
  obtain ⟨s4, e4, n4, i4, p4, l4⟩ := stage_place_of s3 n 1000000 (10 * 1000000)
    (by decide) n3 i3 f1 f2 f3 f4 r3
  clear f1 f2 f3 f4 n3 i3
  have r4 : s4.outputBufferPtr < s4.outputBuffer.length := by rw [l4, l3, l2, l1, hlen]; omega
  obtain ⟨f1, f2, f3, f4⟩ := place_facts n 100000 (by decide) (by decide) h10
  obtain ⟨s5, e5, n5, i5, p5, l5⟩ := stage_place_of s4 n 100000 (10 * 100000)
    (by decide) n4 i4 f1 f2 f3 f4 r4
  clear f1 f2 f3 f4 n4 i4
  have r5 : s5.outputBufferPtr < s5.outputBuffer.length := by
    rw [l5, l4, l3, l2, l1, hlen]; omega
  obtain ⟨f1, f2, f3, f4⟩ := place_facts n 10000 (by decide) (by decide) h10
  obtain ⟨s6, e6, n6, i6, p6, l6⟩ := stage_place_of s5 n 10000 (10 * 10000)
    (by decide) n5 i5 f1 f2 f3 f4 r5
  clear f1 f2 f3 f4 n5 i5
  have r6 : s6.outputBufferPtr < s6.outputBuffer.length := by
    rw [l6, l5, l4, l3, l2, l1, hlen]; omega
  obtain ⟨f1, f2, f3, f4⟩ := place_facts n 1000 (by decide) (by decide) h10
  obtain ⟨s7, e7, n7, i7, p7, l7⟩ := stage_place_of s6 n 1000 (10 * 1000)
    (by decide) n6 i6 f1 f2 f3 f4 r6
  clear f1 f2 f3 f4 n6 i6
  have r7 : s7.outputBufferPtr < s7.outputBuffer.length := by
    rw [l7, l6, l5, l4, l3, l2, l1, hlen]; omega
  obtain ⟨f1, f2, f3, f4⟩ := place_facts n 100 (by decide) (by decide) h10
  obtain ⟨s8, e8, n8, i8, p8, l8⟩ := stage_place_of s7 n 100 (10 * 100)
    (by decide) n7 i7 f1 f2 f3 f4 r7
  clear f1 f2 f3 f4 n7 i7
  have r8 : s8.outputBufferPtr < s8.outputBuffer.length := by
    rw [l8, l7, l6, l5, l4, l3, l2, l1, hlen]; omega
  obtain ⟨f1, f2, f3, f4⟩ := place_facts n 10 (by decide) (by decide) h10
  obtain ⟨s9, e9, n9, i9, p9, l9⟩ := stage_place_of s8 n 10 (10 * 10)
    (by decide) n8 i8 f1 f2 f3 f4 r8
  clear f1 f2 f3 f4 n8 i8
  have r9 : s9.outputBufferPtr < s9.outputBuffer.length := by
    rw [l9, l8, l7, l6, l5, l4, l3, l2, l1, hlen]; omega
  have hlast : s9.u32integerNumber < 10 := by rw [n9]; exact Nat.mod_lt _ (by decide)
  obtain ⟨sf, ef, hst, pf, lf⟩ := stage_last s9 (n / 10) hlast i9 r9
  refine ⟨sf, ?_, ?_, by omega, by omega⟩
  · unfold stageDecimal
    simp only [bind, Except.bind, e1, e2, e3, e4, e5, e6, e7, e8, e9]
    exact ef
  · rw [hst, n9]
    congr 1
    exact Nat.div_add_mod n 10

theorem putDigitInOutputBuffer_staged {s s1 : Static} {d : Nat}
    (h : putDigitInOutputBuffer s d = .ok s1)
    (hroom : s.outputBufferPtr < s.outputBuffer.length) :
    ∃ c, c ≠ 0 ∧ s1.staged = s.staged ++ [c] ∧ s1.u32integerNumber = s.u32integerNumber ∧
      (d = 10 → c = 65 ∨ c = 97) := by
  unfold putDigitInOutputBuffer ASSERT at h
  by_cases hd : 15 ≥ d
  · simp only [hd, decide_True, if_true, bind, Except.bind, pure, Except.pure] at h
    cases h
    by_cases h10 : 10 > d
    · refine ⟨(d + 48) % 256, by omega, ?_, ?_, by omega⟩
      · simp only [h10, if_true]
        exact staged_put s _ hroom
      · simp only [h10, if_true]
        rfl
    · by_cases hcap : logicalAnd s.embpf_InternalFlags FLAG_HEX_USE_CAPITALS = true
      · refine ⟨(d - 10 + 65) % 256, by omega, ?_, ?_, fun h => Or.inl (by subst h; rfl)⟩
        · simp only [h10, hcap, if_true, if_false]
          exact staged_put s _ hroom
        · simp only [h10, hcap, if_true, if_false]
          rfl
      · refine ⟨(d - 10 + 97) % 256, by omega, ?_, ?_, fun h => Or.inr (by subst h; rfl)⟩
        · simp only [h10, hcap, if_false]
          exact staged_put s _ hroom
        · simp only [h10, hcap, if_false]
          rfl
  · simp [hd, bind, Except.bind] at h

theorem divideAndPutInOutputBuffer_staged {s s1 : Static} {p : Nat} (hp : 0 < p)
    (h : divideAndPutInOutputBuffer s p = .ok s1)
    (hroom : s.outputBufferPtr < s.outputBuffer.length)
    (hnz : ∀ b ∈ s.staged, b ≠ 0) :
    s1.u32integerNumber =
        (if s.u32integerNumber = 0 then 0 else (s.u32integerNumber - 1) % p + 1) ∧
      ∀ b ∈ s1.staged, b ≠ 0 := by
  rw [divideAndPutInOutputBuffer_eq s p hp] at h
  split at h
  · obtain ⟨c, hc, hst, hnum, _⟩ := putDigitInOutputBuffer_staged h hroom
    refine ⟨hnum, fun b hb => ?_⟩
    rw [hst] at hb
    rcases List.mem_append.mp hb with hb | hb
    · exact hnz b hb
    · simp at hb
      rw [hb]
      exact hc
  · cases h
    exact ⟨rfl, hnz⟩

theorem remainder_facts (r p : Nat) (hp : 0 < p) (hp10 : 10 ∣ p) (hr0 : r ≠ 0)
    (hr10 : r % 10 = 0) :
    (if r = 0 then 0 else (r - 1) % p + 1) ≠ 0 ∧
      (if r = 0 then 0 else (r - 1) % p + 1) % 10 = 0 ∧
      (if r = 0 then 0 else (r - 1) % p + 1) ≤ p := by
  rw [if_neg hr0]
  refine ⟨by omega, ?_, Nat.succ_le_of_lt (Nat.mod_lt _ hp)⟩
  by_cases hmod : r % p = 0
  · obtain ⟨q, hq⟩ := Nat.dvd_of_mod_eq_zero hmod
    have hq0 : q ≠ 0 := by
      intro h
      rw [h, Nat.mul_zero] at hq
      exact hr0 hq
    have e : r - 1 = (p - 1) + p * (q - 1) := by
      rw [hq, Nat.mul_sub_one]
      have : p ≤ p * q := Nat.le_mul_of_pos_right p (Nat.pos_of_ne_zero hq0)
      omega
    rw [e, Nat.add_mul_mod_self_left, Nat.mod_eq_of_lt (show p - 1 < p by omega)]
    have : p - 1 + 1 = p := by omega
    rw [this]
    exact Nat.mod_eq_zero_of_dvd hp10
  · rw [(pred_div_mod r p hp hmod).2, Nat.mod_mod_of_dvd r hp10]
    exact hr10

theorem place_with_zero {s s1 : Static} {p : Nat} (hp : 0 < p) (hp10 : 10 ∣ p)
    (h : divideAndPutInOutputBuffer s p = .ok s1)
    (hroom : s.outputBufferPtr < s.outputBuffer.length)
    (hnz : ∀ b ∈ s.staged, b ≠ 0) (hr0 : s.u32integerNumber ≠ 0)
    (hr10 : s.u32integerNumber % 10 = 0) :
    (∀ b ∈ s1.staged, b ≠ 0) ∧ s1.u32integerNumber ≠ 0 ∧ s1.u32integerNumber % 10 = 0 ∧
      s1.u32integerNumber ≤ p ∧ s1.outputBufferPtr ≤ s.outputBufferPtr + 1 ∧
      s1.outputBuffer.length = s.outputBuffer.length := by
  obtain ⟨hnum, hnz1⟩ := divideAndPutInOutputBuffer_staged hp h hroom hnz
  obtain ⟨f1, f2, f3⟩ := remainder_facts s.u32integerNumber p hp hp10 hr0 hr10
  obtain ⟨hptr, hlen⟩ := divideAndPutInOutputBuffer_ptr h
  rw [← hnum] at f1 f2 f3
  exact ⟨hnz1, f1, f2, f3, hptr, hlen⟩

theorem stageDecimal_of_multiple {s sf : Static} (hr0 : s.u32integerNumber ≠ 0)
    (hr10 : s.u32integerNumber % 10 = 0) (hptr : s.outputBufferPtr = 0)
    (hlen : s.outputBuffer.length = 12) (h : stageDecimal s = .ok sf) :
    (∀ b ∈ sf.staged, b ≠ 0) ∧ (65 ∈ sf.staged ∨ 97 ∈ sf.staged) ∧
      sf.outputBufferPtr < 12 ∧ sf.outputBuffer.length = 12 := by
  unfold stageDecimal at h
  obtain ⟨a1, h1, h⟩ := bind_ok h
  obtain ⟨a2, h2, h⟩ := bind_ok h
  obtain ⟨a3, h3, h⟩ := bind_ok h
  obtain ⟨a4, h4, h⟩ := bind_ok h
  obtain ⟨a5, h5, h⟩ := bind_ok h
  obtain ⟨a6, h6, h⟩ := bind_ok h
  obtain ⟨a7, h7, h⟩ := bind_ok h
  obtain ⟨a8, h8, h⟩ := bind_ok h
  obtain ⟨a9, h9, h⟩ := bind_ok h
  have z0 : ∀ b ∈ s.staged, b ≠ 0 := by simp [Static.staged, hptr]
  obtain ⟨z1, c1, d1, _, p1, l1⟩ := place_with_zero (by decide) (by decide) h1
    (by rw [hlen, hptr]; decide) z0 hr0 hr10
  obtain ⟨z2, c2, d2, _, p2, l2⟩ := place_with_zero (by decide) (by decide) h2
    (by rw [l1, hlen]; omega) z1 c1 d1
  obtain ⟨z3, c3, d3, _, p3, l3⟩ := place_with_zero (by decide) (by decide) h3
    (by rw [l2, l1, hlen]; omega) z2 c2 d2
  obtain ⟨z4, c4, d4, _, p4, l4⟩ := place_with_zero (by decide) (by decide) h4
    (by rw [l3, l2, l1, hlen]; omega) z3 c3 d3
  obtain ⟨z5, c5, d5, _, p5, l5⟩ := place_with_zero (by decide) (by decide) h5
    (by rw [l4, l3, l2, l1, hlen]; omega) z4 c4 d4
  obtain ⟨z6, c6, d6, _, p6, l6⟩ := place_with_zero (by decide) (by decide) h6
    (by rw [l5, l4, l3, l2, l1, hlen]; omega) z5 c5 d5
  obtain ⟨z7, c7, d7, _, p7, l7⟩ := place_with_zero (by decide) (by decide) h7
    (by rw [l6, l5, l4, l3, l2, l1, hlen]; omega) z6 c6 d6
  obtain ⟨z8, c8, d8, _, p8, l8⟩ := place_with_zero (by decide) (by decide) h8
    (by rw [l7, l6, l5, l4, l3, l2, l1, hlen]; omega) z7 c7 d7
  obtain ⟨z9, c9, d9, b9, p9, l9⟩ := place_with_zero (by decide) (by decide) h9
    (by rw [l8, l7, l6, l5, l4, l3, l2, l1, hlen]; omega) z8 c8 d8
  have hten : a9.u32integerNumber = 10 := by omega
  have r9 : a9.outputBufferPtr < a9.outputBuffer.length := by
    rw [l9, l8, l7, l6, l5, l4, l3, l2, l1, hlen]; omega
  rw [hten] at h
  obtain ⟨c, hc, hst, _, hletter⟩ := putDigitInOutputBuffer_staged h r9
  obtain ⟨pf, lf⟩ := putDigitInOutputBuffer_ptr h
  refine ⟨fun b hb => ?_, ?_, by omega, by omega⟩
  · rw [hst] at hb
    rcases List.mem_append.mp hb with hb | hb
    · exact z9 b hb
    · simp at hb
      rw [hb]
      exact hc
  · rw [hst]
    rcases hletter rfl with h65 | h97
    · left; simp [h65]
    · right; simp [h97]

theorem takeWhile_staged (s : Static) (hroom : s.outputBufferPtr < s.outputBuffer.length)
    (hnz : ∀ b ∈ s.staged, b ≠ 0) :
    (s.outputBuffer.set s.outputBufferPtr 0).takeWhile (· != 0) = s.staged := by
  rw [List.set_eq_take_append_cons_drop, if_pos hroom]
  have hall : ∀ b ∈ s.outputBuffer.take s.outputBufferPtr, (b != 0) = true :=
    fun b hb => bne_iff_ne.mpr (hnz b hb)
  rw [List.takeWhile_append_of_pos hall]
  simp [Static.staged]

theorem emitted_unsigned (s : Static) (n : Nat) (hn : n < 4294967296) :
    emitted s (cstring "%u") [Arg.word n] =
      (stageDecimal { s with embpf_InternalFlags := 0, outputBufferPtr := 0,
                             u32integerNumber := n }).map
        fun sf => (sf.outputBuffer.set sf.outputBufferPtr 0).takeWhile (· != 0) := by
  have hfmt : cstring "%u" = [37, 117, 0] := by decide
  have hparse : ∀ t : Static, parseFlagsWidth t [117, 0] = (t, [0], 117, 0) := by
    intro t
    simp [parseFlagsWidth, readByte, advance, widthLoop, isWidthDigit]
  have hstage : ∀ t : Static, stageSpecifier t 117 [Arg.word n] =
      (stageDecimal { t with outputBufferPtr := 0, u32integerNumber := n }).map
        fun sf => ({ sf with embpf_InternalFlags := sf.embpf_InternalFlags &&& 251 },
          Source.buffer, []) := by
    intro t
    simp only [stageSpecifier, vaArgWord, Nat.mod_eq_of_lt hn, bind, Except.bind, pure,
      Except.pure, Except.map]
    simp
  rw [hfmt]
  unfold emitted embedded_printf
  simp only [readByte, advance, List.headD_cons, List.tail_cons, List.length_cons,
    List.length_nil]
  rw [mainLoop_succ, if_neg (by decide), if_neg (by decide), directive_eq, hparse, hstage]
  simp only []
  generalize stageDecimal _ = x
  cases x with
  | error e => rfl
  | ok sf =>
    simp only [Except.map, readByte, advance, List.headD_cons, List.tail_cons]
    rw [mainLoop_succ, if_pos rfl]
    simp [Source.bytes, emitDirective_eq]

/-- C26: `"%u"` with a 32-bit `n` emits the decimal representation of `n` if and only if `n` is
`0` or not a multiple of `10`. -/
theorem unsigned_decimal_iff_not_multiple_of_ten (s : Static) (hs : s.outputBuffer.length = 12)
    (n : Nat) (hn : n < 4294967296) :
    emitted s (cstring "%u") [Arg.word n] = .ok (decimalDigits n) ↔ (n = 0 ∨ n % 10 ≠ 0) := by
  constructor
  · intro h
    by_contra hcon
    simp only [not_or, not_not] at hcon
    obtain ⟨hn0, h10⟩ := hcon
    rw [emitted_unsigned s n hn] at h
    rcases hst : stageDecimal (Static.mk s.outputBuffer 0 0 n) with e | sf
    · rw [hst] at h; cases h
    · rw [hst] at h
      simp only [Except.map, Except.ok.injEq] at h
      obtain ⟨hnz, hletter, hp, hl⟩ := stageDecimal_of_multiple
        (s := Static.mk s.outputBuffer 0 0 n) hn0 h10 rfl hs hst
      rw [takeWhile_staged sf (by omega) hnz] at h
      rw [h] at hletter
      rcases hletter with hmem | hmem
      · have := decimalDigits_bytes n 65 hmem
        omega
      · have := decimalDigits_bytes n 97 hmem
        omega
  · intro h
    rcases h with h0 | h10
    · subst h0
      have hl : s.outputBuffer.length = Static.initial.outputBuffer.length := by rw [hs]; decide
      rw [emitted_eq_of_length hl]
      decide!
    · rw [emitted_unsigned s n hn]
      obtain ⟨sf, hsf, hst, hp, hl⟩ := stageDecimal_of_not_multiple { s with
        embpf_InternalFlags := 0, outputBufferPtr := 0, u32integerNumber := n } n hn h10 rfl rfl
        rfl hs
      rw [hsf]
      simp only [Except.map, Except.ok.injEq]
      rw [takeWhile_staged sf (by omega) (fun b hb => by
        rw [hst] at hb
        have := decimalDigits_bytes n b hb
        omega)]
      exact hst

theorem unsigned_decimal_iff_not_multiple_of_ten_witness :
    (Static.initial.outputBuffer.length = 12 ∧ 4000000001 < 4294967296) ∧
      (emitted Static.initial (cstring "%u") [Arg.word 4000000001] =
          .ok (decimalDigits 4000000001) ↔ (4000000001 = 0 ∨ 4000000001 % 10 ≠ 0)) ∧
      emitted Static.initial (cstring "%u") [Arg.word 4000000001] = .ok (text "4000000001") :=
  ⟨⟨by decide, by decide⟩,
    unsigned_decimal_iff_not_multiple_of_ten Static.initial (by decide) 4000000001 (by decide),
    by decide!⟩

end EmbeddedPrintf
